import Mathlib

/-!
Verification development for the competitor-analysis pipeline
(`backend-node/src/services/competitor-analysis.ts` and
`backend-node/src/services/scraper.ts`), shallowly embedded in Lean 4.

JavaScript semantics conventions used throughout:
* a nullable / possibly-`undefined` value is an `Option`;
* `a || b` on strings picks `a` unless it is `null`/`undefined`/`""`;
* `a ?? b` picks `a` unless it is `null`/`undefined`;
* `String.prototype.slice(0, n)` is modelled at the `List Char` level;
* the DOM / cheerio document is abstracted as a `Doc` record carrying the
  text values the extractor reads (title text, meta contents, li texts,
  first pricing-selector match, body text).
-/

namespace CompetitorAnalysis

/-- JS `a || b` where `a` is a nullable string: falsy for `null`/`undefined`/`""`. -/
def strOr (a : Option String) (b : String) : String :=
  match a with
  | some s => if s = "" then b else s
  | none => b

/-- JS `s || b` for a plain (non-nullable) string `s`. -/
def strNonEmptyOr (s b : String) : String :=
  if s = "" then b else s

/-- JS `data.x || fallback` where the fallback is itself nullable
(used by `scrapeCompetitor`'s conditional overwrites). -/
def strOrOpt (s : String) (fallback : Option String) : Option String :=
  if s = "" then fallback else some s

/-- Truthiness of a nullable string (`!competitor.url` is true for `null` and `""`). -/
def urlTruthy (o : Option String) : Bool :=
  match o with
  | some s => s != ""
  | none => false

/-- JS `String.prototype.slice(0, n)`. -/
def jsSlice (s : String) (n : Nat) : String :=
  (s.data.take n).asString

/-- Whitespace test standing in for the regex class `\s`. -/
def isWs (c : Char) : Bool := c.isWhitespace

/-- One step of whitespace-run collapsing (right fold step).
A whitespace char merges into a following collapsed space, otherwise
becomes a single `' '`. -/
def wsStep (c : Char) (acc : List Char) : List Char :=
  if isWs c then
    match acc with
    | a :: t => if isWs a then a :: t else ' ' :: a :: t
    | [] => [' ']
  else c :: acc

/-- JS `s.replace(/\s+/g, ' ')`: every maximal whitespace run becomes one space. -/
def collapseWs (l : List Char) : List Char :=
  l.foldr wsStep []

/-- Drop trailing whitespace. -/
def rdropWs (l : List Char) : List Char :=
  (l.reverse.dropWhile isWs).reverse

/-- JS `String.prototype.trim()` at the char-list level. -/
def trimChars (l : List Char) : List Char :=
  rdropWs (l.dropWhile isWs)

/-- JS `String.prototype.trim()`. -/
def trimStr (s : String) : String :=
  (trimChars s.data).asString

/-- `true` when no two consecutive characters are both whitespace. -/
def noWsRun : List Char → Bool
  | a :: b :: t => (!(isWs a && isWs b)) && noWsRun (b :: t)
  | _ => true

/-- The structured record produced by `scrapeUrl` (scraper.ts). -/
structure ScrapedData where
  title : String
  description : String
  tagline : String
  features : List String
  pricing : String
  bodyText : String
  url : String
  scrapedAt : String
deriving DecidableEq

/-- Abstraction of the cheerio document after the noise-stripping pass
(`$('script, style, nav, footer, header, noscript, iframe').remove()`):
the text values each extraction step of `scrapeUrl` reads. -/
structure Doc where
  /-- `$('title').first().text()` (`none` when there is no title element). -/
  title : Option String
  /-- `$('meta[name="description"]').attr('content')`. -/
  metaDescription : Option String
  /-- `$('meta[property="og:description"]').attr('content')`. -/
  ogDescription : Option String
  /-- `$('h1').first().text()` (`none` when there is no h1 element). -/
  h1 : Option String
  /-- `$('meta[property="og:title"]').attr('content')`. -/
  ogTitle : Option String
  /-- The text of every `<li>` element, in document order. -/
  liTexts : List String
  /-- Text of the first element matched by the pricing selector cascade. -/
  pricingText : Option String
  /-- `$('body').text()`. -/
  bodyText : String
deriving DecidableEq

/-- The body of the `$('li').each(...)` callback of `scrapeUrl`: keep the
trimmed li text when its length is strictly between 5 and 200 and fewer
than 20 features were kept so far. -/
def featStep (acc : List String) (x : String) : List String :=
  let text := trimStr x
  if text.length > 5 && text.length < 200 && acc.length < 20 then
    acc ++ [text]
  else acc

/-- The feature-collection loop of `scrapeUrl`. -/
def collectFeatures (liTexts : List String) : List String :=
  liTexts.foldl featStep []

/-- The extraction phase of `scrapeUrl` (scraper.ts lines 467-519),
given the parsed document, the source url and the current timestamp. -/
def extractDoc (d : Doc) (url now : String) : ScrapedData :=
  let title := strNonEmptyOr (trimStr (strOr d.title "")) ""
  let description :=
    strOr (d.metaDescription.map trimStr) (strOr (d.ogDescription.map trimStr) "")
  let tagline :=
    strNonEmptyOr (trimStr (strOr d.h1 "")) (strOr (d.ogTitle.map trimStr) "")
  let features := collectFeatures d.liTexts
  let pricing :=
    match d.pricingText with
    | some p => jsSlice (trimStr p) 1000
    | none => ""
  let bodyText := ((trimChars (collapseWs d.bodyText.data)).take 5000).asString
  { title, description, tagline, features, pricing, bodyText, url, scrapedAt := now }

/-- `scrapeUrl` (scraper.ts lines 450-520).  The URL has already been parsed
(`new URL(url)`); `protocol` is its scheme including the trailing colon.
`fetch` abstracts the single `axios.get`, `parse` abstracts `cheerio.load`.
The second component counts the network requests issued. -/
def scrapeUrlModel (protocol : String) (fetch : Except String String)
    (parse : String → Doc) (url now : String) :
    Except String ScrapedData × Nat :=
  if (["http:", "https:"].contains protocol) = false then
    (.error "Only HTTP/HTTPS URLs are supported", 0)
  else
    match fetch with
    | .error e => (.error e, 1)
    | .ok html => (.ok (extractDoc (parse html) url now), 1)

/-! ## Data model (prisma schema: `CompetitorAnalysisStatus`, `ScrapeStatus`,
`competitors`, `competitor_analyses`) -/

/-- The `ScrapeStatus` enum of the schema. -/
inductive ScrapeStatus where
  | PENDING | SCRAPING | COMPLETED | FAILED | SKIPPED
deriving DecidableEq

/-- The `CompetitorAnalysisStatus` enum of the schema. -/
inductive AnalysisStatus where
  | DRAFT | SCRAPING | ANALYZING | COMPLETED | FAILED
deriving DecidableEq

/-- A JSON value occurring as a field of a score entry.  `runAnalysis` only
tests such values with `typeof x === 'number'` and copies them around, so
arrays and objects nested inside an entry stay opaque. -/
inductive JPrim where
  | jnum (q : Rat)
  | jstr (s : String)
  | jbool (b : Bool)
  | jarrOpaque
  | jobjOpaque
deriving DecidableEq

/-- One element of the engine's `competitor_scores` / `patterns` array.
Absent keys and JSON `null` are both `none` (both are nullish in JS). -/
structure ScoreEntryJ where
  competitorId : Option String
  name : Option String
  overallScore : Option JPrim
  overall : Option JPrim
  featureScore : Option JPrim
  features : Option JPrim
  pricingScore : Option JPrim
  pricing : Option JPrim
  uxScore : Option JPrim
  ux : Option JPrim
  marketScore : Option JPrim
  market : Option JPrim
  strengths : Option (List String)
  weaknesses : Option (List String)
deriving DecidableEq

/-- A JSON value occurring as the `competitor_scores` or `patterns` key of
the engine's response: either an array of score entries or some non-array
value. -/
inductive JVal where
  | jnum (q : Rat)
  | jstr (s : String)
  | jbool (b : Bool)
  | jobj
  | jarr (entries : List ScoreEntryJ)
deriving DecidableEq

/-- JS truthiness of a `JVal` (arrays and objects are always truthy,
including the empty array). -/
def truthyJ : JVal → Bool
  | .jnum q => q != 0
  | .jstr s => s != ""
  | .jbool b => b
  | .jobj => true
  | .jarr _ => true

/-- JS `a || b` where `a` is a possibly-absent JSON value. -/
def jvalOr (a : Option JVal) (b : JVal) : JVal :=
  match a with
  | some v => if truthyJ v then v else b
  | none => b

/-- JS `a ?? b` (nullish coalescing) on possibly-absent JSON values. -/
def coal (a b : Option JPrim) : Option JPrim :=
  match a with
  | some v => some v
  | none => b

/-- `typeof v === 'number'` projection: the rational payload of a numeric
JSON value. -/
def numOf : Option JPrim → Option Rat
  | some (.jnum q) => some q
  | _ => none

/-- A row of the `competitors` table (fields read or written by the
service).  The five score columns hold whatever JSON value the service
writes into them; the schema's column typing is the ORM's concern and is
not modelled. -/
structure Competitor where
  id : String
  name : String
  url : Option String
  description : Option String
  category : Option String
  tagline : Option String
  features : List String
  pricing : Option String
  strengths : List String
  weaknesses : List String
  scrapedAt : Option String
  scrapeStatus : ScrapeStatus
  scrapeError : Option String
  rawScrapedData : Option ScrapedData
  overallScore : Option JPrim
  featureScore : Option JPrim
  pricingScore : Option JPrim
  uxScore : Option JPrim
  marketScore : Option JPrim
  scores : Option ScoreEntryJ
  analysisId : String
deriving DecidableEq

/-- The engine's response map, restricted to the two keys `runAnalysis`
reads (`competitor_scores`, `patterns`); the rest of the response is
persisted opaquely as the summary blob. -/
structure EngineResult where
  competitor_scores : Option JVal
  patterns : Option JVal
deriving DecidableEq

/-- A row of the `competitor_analyses` table together with its loaded
competitors (`include: { competitors: true }`). -/
structure AnalysisState where
  id : String
  status : AnalysisStatus
  productName : String
  productUrl : Option String
  productCategory : Option String
  productDescription : Option String
  productStrengths : List String
  productWeaknesses : List String
  summary : Option EngineResult
  overallScore : Option Rat
  competitors : List Competitor
deriving DecidableEq

/-- The `CompetitorInput` interface of competitor-analysis.ts. -/
structure CompetitorInput where
  id : String
  name : String
  url : Option String
  description : Option String
  features : List String
deriving DecidableEq

/-- The `ProductInput` interface of competitor-analysis.ts. -/
structure ProductInput where
  name : String
  url : Option String
  description : Option String
  strengths : List String
  weaknesses : List String
  category : Option String
deriving DecidableEq

/-! ## Scrape coordinator (`scrapeCompetitor`, `scrapeAllPending`) -/

/-- `prisma.competitor.update({ where: { id: cid }, data: f })`:
replace the row whose id is `cid` by `f` of it. -/
def updateCompWith (comps : List Competitor) (cid : String)
    (f : Competitor → Competitor) : List Competitor :=
  comps.map (fun x => if x.id == cid then f x else x)

/-- The success-path competitor update of `scrapeCompetitor`
(lines 34-45): `c` is the row as loaded at the start of the call (the
fallback source), `x` the row being updated. -/
def successUpdate (c : Competitor) (data : ScrapedData) (now : String)
    (x : Competitor) : Competitor :=
  { x with
    scrapeStatus := .COMPLETED
    scrapedAt := some now
    rawScrapedData := some data
    tagline := strOrOpt data.tagline c.tagline
    description := strOrOpt data.description c.description
    features := if data.features.length != 0 then data.features else c.features
    pricing := strOrOpt data.pricing c.pricing }

/-- The failure-path competitor update of `scrapeCompetitor`
(lines 49-55). -/
def failUpdate (msg : String) (x : Competitor) : Competitor :=
  { x with
    scrapeStatus := .FAILED
    scrapeError := some (strNonEmptyOr msg "Scrape failed") }

/-- `scrapeCompetitor(competitorId)` (lines 22-58) acting on the set of
competitor rows.  `oracle` abstracts `scrapeUrl(competitor.url)`, indexed
by the competitor id (whose row determines the url).  Returns the new
rows and the function's return value (`none` is JS `null`). -/
def scrapeCompetitorDB (comps : List Competitor) (cid : String)
    (oracle : String → Except String ScrapedData) (now : String) :
    List Competitor × Option ScrapedData :=
  match comps.find? (fun c => c.id == cid) with
  | none => (comps, none)
  | some c =>
    if urlTruthy c.url = false then (comps, none)
    else
      let comps1 := updateCompWith comps cid (fun x => { x with scrapeStatus := .SCRAPING })
      match oracle cid with
      | .ok data => (updateCompWith comps1 cid (successUpdate c data now), some data)
      | .error e => (updateCompWith comps1 cid (failUpdate e), none)

/-- The sequential loop of `scrapeAllPending` (lines 70-74): process each
selected competitor id in order, counting the calls that returned data. -/
def goScrape (comps : List Competitor) (ids : List String)
    (oracle : String → Except String ScrapedData) (now : String) :
    List Competitor × Nat :=
  match ids with
  | [] => (comps, 0)
  | cid :: rest =>
    let step := scrapeCompetitorDB comps cid oracle now
    let next := goScrape step.1 rest oracle now
    (next.1, (if step.2.isSome then 1 else 0) + next.2)

/-- The `findMany` filter of `scrapeAllPending` (line 62):
`scrapeStatus: 'PENDING', url: { not: null }`. -/
def isSelected (c : Competitor) : Bool :=
  c.scrapeStatus == .PENDING && c.url.isSome

/-- `scrapeAllPending(analysisId)` (lines 60-77) acting on one analysis
row and its competitors.  Returns the updated analysis and the count of
successful scrapes. -/
def scrapeAllPendingModel (a : AnalysisState)
    (oracle : String → Except String ScrapedData) (now : String) :
    AnalysisState × Nat :=
  let selected := a.competitors.filter isSelected
  let a1 := { a with status := AnalysisStatus.SCRAPING }
  let res := goScrape a1.competitors (selected.map (fun c => c.id)) oracle now
  ({ a1 with competitors := res.1 }, res.2)

/-! ## Analysis prompt builder (`buildAnalysisPrompt`, lines 189-242) -/

/-- The per-competitor block of the prompt (template literal at
lines 196-203).  `scraped` is `c.rawScrapedData`. -/
def competitorDetail (c : Competitor) : String :=
  "\nCompetitor: " ++ c.name ++
  "\nURL: " ++ strOr c.url "N/A" ++
  "\nDescription: " ++
    strOr c.description (strOr (c.rawScrapedData.map (fun d => d.description)) "N/A") ++
  "\nTagline: " ++
    strOr c.tagline (strOr (c.rawScrapedData.map (fun d => d.tagline)) "N/A") ++
  "\nFeatures: " ++
    strNonEmptyOr
      (String.intercalate ", "
        (if c.features.length != 0 then c.features
         else match c.rawScrapedData with
              | some d => d.features
              | none => []))
      "N/A" ++
  "\nPricing: " ++ strOr c.pricing (strOr (c.rawScrapedData.map (fun d => d.pricing)) "N/A") ++
  "\nPage Content: " ++
    jsSlice (match c.rawScrapedData with
             | some d => d.bodyText
             | none => "") 1500

/-- The fixed JSON-contract instruction block ending the prompt
(lines 218-241). -/
def jsonContractBlock : String :=
  "Respond with valid JSON containing:\n" ++
  "\x7b\n" ++
  "  \"summary\": \"Executive summary of the competitive landscape (2-3 sentences)\",\n" ++
  "  \"market_position\": \"leader\" | \"challenger\" | \"follower\" | \"niche\",\n" ++
  "  \"competitor_scores\": [\n" ++
  "    \x7b\n" ++
  "      \"name\": \"Competitor Name\",\n" ++
  "      \"overallScore\": 0-100,\n" ++
  "      \"featureScore\": 0-100,\n" ++
  "      \"pricingScore\": 0-100,\n" ++
  "      \"uxScore\": 0-100,\n" ++
  "      \"marketScore\": 0-100,\n" ++
  "      \"strengths\": [\"...\", \"...\"],\n" ++
  "      \"weaknesses\": [\"...\", \"...\"]\n" ++
  "    \x7d\n" ++
  "  ],\n" ++
  "  \"swot\": \x7b\n" ++
  "    \"strengths\": [\"...\", \"...\"],\n" ++
  "    \"weaknesses\": [\"...\", \"...\"],\n" ++
  "    \"opportunities\": [\"...\", \"...\"],\n" ++
  "    \"threats\": [\"...\", \"...\"]\n" ++
  "  \x7d,\n" ++
  "  \"recommendations\": [\"...\", \"...\", \"...\"]\n" ++
  "\x7d"

/-- `buildAnalysisPrompt(product, competitors, rawCompetitors)`.  As in the
source, the `competitors` parameter is unused by the body; only the
product definition and the raw competitor rows feed the text. -/
def buildAnalysisPrompt (product : ProductInput) (_competitors : List CompetitorInput)
    (rawCompetitors : List Competitor) : String :=
  let competitorDetails := String.intercalate "\n---\n" (rawCompetitors.map competitorDetail)
  "Analyze the competitive landscape for the following product against its competitors.\n" ++
  "\nYOUR PRODUCT:\n" ++
  "Name: " ++ product.name ++
  "\nCategory: " ++ strOr product.category "N/A" ++
  "\nDescription: " ++ strOr product.description "N/A" ++
  "\nStrengths: " ++ strNonEmptyOr (String.intercalate ", " product.strengths) "N/A" ++
  "\nWeaknesses: " ++ strNonEmptyOr (String.intercalate ", " product.weaknesses) "N/A" ++
  "\n\nCOMPETITORS:\n" ++ competitorDetails ++
  "\n\n" ++ jsonContractBlock

/-! ## Analysis coordinator (`runAnalysis`, lines 79-187) -/

/-- Truthiness of a nullable string used in the entry guard
`if (score.competitorId || score.name)`. -/
def optStrTruthy (o : Option String) : Bool :=
  match o with
  | some s => s != ""
  | none => false

/-- One iteration of the score-update loop (lines 138-159): `snapshot` is
`analysis.competitors` as loaded at the start of `runAnalysis` (the list
the `find` runs over and the strengths/weaknesses fallback source), `cur`
the current DB rows. -/
def applyEntry (snapshot : List Competitor) (cur : List Competitor)
    (e : ScoreEntryJ) : List Competitor :=
  if optStrTruthy e.competitorId || optStrTruthy e.name then
    match snapshot.find? (fun c => some c.id == e.competitorId || some c.name == e.name) with
    | some m =>
      updateCompWith cur m.id (fun x =>
        { x with
          overallScore := coal e.overallScore e.overall
          featureScore := coal e.featureScore e.features
          pricingScore := coal e.pricingScore e.pricing
          uxScore := coal e.uxScore e.ux
          marketScore := coal e.marketScore e.market
          scores := some e
          strengths := match e.strengths with
                       | some xs => xs
                       | none => m.strengths
          weaknesses := match e.weaknesses with
                        | some xs => xs
                        | none => m.weaknesses })
    | none => cur
  else cur

instance {ε α : Type} [DecidableEq ε] [DecidableEq α] : DecidableEq (Except ε α) := fun a b =>
  match a, b with
  | .error e1, .error e2 =>
    match decEq e1 e2 with
    | isTrue h => isTrue (by rw [h])
    | isFalse h => isFalse (by intro hc; cases hc; exact h rfl)
  | .ok v1, .ok v2 =>
    match decEq v1 v2 with
    | isTrue h => isTrue (by rw [h])
    | isFalse h => isFalse (by intro hc; cases hc; exact h rfl)
  | .error _, .ok _ => isFalse (by intro h; cases h)
  | .ok _, .error _ => isFalse (by intro h; cases h)

/-- The outcome of one `runAnalysis` call: the analysis row afterwards
(`none` when the analysis was never found), the value returned or error
thrown, and the analysis-status writes performed, in order. -/
structure RunOutcome where
  state : Option AnalysisState
  result : Except String EngineResult
  statusWrites : List AnalysisStatus
deriving DecidableEq

/-- `runAnalysis(analysisId, userId)` (lines 79-187) acting on the looked-up
analysis row.  `engine` abstracts
`aiProvider.analyzeExperimentResults('competitor_analysis', items, context, userId)`
as a function of the built prompt (the only input the modelled behaviour
depends on); an `Except.error` is a thrown engine/provider exception.

When the resolved `competitor_scores || patterns || []` value is not an
array, the source skips the `Array.isArray`-guarded update loop and then
crashes calling `.map` on it; the `catch` marks the analysis `FAILED` and
rethrows. -/
def runAnalysisModel (a? : Option AnalysisState)
    (engine : String → Except String EngineResult) : RunOutcome :=
  match a? with
  | none => ⟨none, .error "Analysis not found", []⟩
  | some analysis =>
    let a1 := { analysis with status := AnalysisStatus.ANALYZING }
    let product : ProductInput :=
      { name := analysis.productName
        url := analysis.productUrl
        description := analysis.productDescription
        strengths := analysis.productStrengths
        weaknesses := analysis.productWeaknesses
        category := analysis.productCategory }
    let competitorInputs : List CompetitorInput :=
      analysis.competitors.map (fun c =>
        { id := c.id, name := c.name, url := c.url
          description := c.description, features := c.features })
    let prompt := buildAnalysisPrompt product competitorInputs analysis.competitors
    match engine prompt with
    | .error e => ⟨some { a1 with status := .FAILED }, .error e, [.ANALYZING, .FAILED]⟩
    | .ok result =>
      let competitorScores : JVal :=
        jvalOr result.competitor_scores (jvalOr result.patterns (.jarr []))
      match competitorScores with
      | .jarr entries =>
        let comps' := entries.foldl (applyEntry analysis.competitors) a1.competitors
        let allScores : List Rat := entries.filterMap (fun s => numOf (coal s.overallScore s.overall))
        let overallScore : Option Rat :=
          if allScores.length > 0 then
            some (allScores.foldl (fun a b => a + b) 0 / (allScores.length : Rat))
          else none
        ⟨some { a1 with
                 competitors := comps'
                 status := .COMPLETED
                 summary := some result
                 overallScore := overallScore },
         .ok result, [.ANALYZING, .COMPLETED]⟩
      | _ =>
        ⟨some { a1 with status := .FAILED },
         .error "competitorScores.map is not a function", [.ANALYZING, .FAILED]⟩

/-! ## Sample rows used by concrete witnesses and counterexamples -/

/-- A freshly created competitor row (all nullable columns null, scrape
status at its schema default `PENDING`). -/
def baseCompetitor : Competitor :=
  { id := "c1", name := "A", url := none, description := none, category := none
    tagline := none, features := [], pricing := none, strengths := []
    weaknesses := [], scrapedAt := none, scrapeStatus := .PENDING
    scrapeError := none, rawScrapedData := none, overallScore := none
    featureScore := none, pricingScore := none, uxScore := none
    marketScore := none, scores := none, analysisId := "a1" }

/-- A scraped-data record with every extractable field at its default. -/
def baseScraped : ScrapedData :=
  { title := "", description := "", tagline := "", features := [], pricing := ""
    bodyText := "", url := "https://example.test", scrapedAt := "t0" }

/-- A score entry with every key absent. -/
def baseEntry : ScoreEntryJ :=
  { competitorId := none, name := none, overallScore := none, overall := none
    featureScore := none, features := none, pricingScore := none, pricing := none
    uxScore := none, ux := none, marketScore := none, market := none
    strengths := none, weaknesses := none }

/-- A freshly created analysis row (schema default status `DRAFT`). -/
def baseAnalysis : AnalysisState :=
  { id := "a1", status := .DRAFT, productName := "Acme", productUrl := none
    productCategory := none, productDescription := none, productStrengths := []
    productWeaknesses := [], summary := none, overallScore := none
    competitors := [] }

/-- An empty parsed document. -/
def baseDoc : Doc :=
  { title := none, metaDescription := none, ogDescription := none, h1 := none
    ogTitle := none, liTexts := [], pricingText := none, bodyText := "" }

/-- A competitor row with a live URL, used by several counterexamples. -/
def webCompetitor : Competitor :=
  { baseCompetitor with url := some "https://x.test" }

/-- A non-trivial scraped record: tagline and pricing extracted, the
description and feature list empty. -/
def sampleScraped : ScrapedData :=
  { baseScraped with tagline := "Best Widgets", pricing := "From $9" }

/-! ## C4 — `scrapeAllPending` selection, isolation and success count -/

def exceptOk : Except String ScrapedData → Bool
  | .ok _ => true
  | .error _ => false

def exceptToOption : Except String ScrapedData → Option ScrapedData
  | .ok d => some d
  | .error _ => none

/-- The net effect of one `scrapeCompetitor` call on its own row, as a
function of that row's url and its own scrape outcome only. -/
def scrapeResult (c : Competitor) (r : Except String ScrapedData) (now : String) :
    Competitor :=
  if urlTruthy c.url then
    match r with
    | .ok d => successUpdate c d now c
    | .error e => failUpdate e c
  else c

/-- One pending competitor whose scrape will fail. -/
def cWebA : Competitor :=
  { baseCompetitor with id := "c1", name := "A", url := some "https://a.test" }

/-- One pending competitor whose scrape will succeed. -/
def cWebB : Competitor :=
  { baseCompetitor with id := "c2", name := "B", url := some "https://b.test" }

/-- An analysis batching the two competitors above. -/
def batchAnalysis : AnalysisState :=
  { baseAnalysis with competitors := [cWebA, cWebB] }

/-- A scrape oracle failing on the first competitor and succeeding on the
second. -/
def batchOracle : String → Except String ScrapedData :=
  fun cid => if cid = "c1" then .error "timeout" else .ok sampleScraped

/-! ## C3 — field precedence in the prompt builder -/

/-- The description shown for a competitor, per the amended claim: the
stored (manually entered) field wins when non-empty, else the scraped
value when present and non-empty, else `N/A`. -/
def amendedDescription (c : Competitor) : String :=
  match c.description with
  | some s =>
    if s = "" then
      match c.rawScrapedData with
      | some d => if d.description = "" then "N/A" else d.description
      | none => "N/A"
    else s
  | none =>
    match c.rawScrapedData with
    | some d => if d.description = "" then "N/A" else d.description
    | none => "N/A"

/-- The tagline shown for a competitor: same stored-field-first precedence
as the description. -/
def amendedTagline (c : Competitor) : String :=
  match c.tagline with
  | some s =>
    if s = "" then
      match c.rawScrapedData with
      | some d => if d.tagline = "" then "N/A" else d.tagline
      | none => "N/A"
    else s
  | none =>
    match c.rawScrapedData with
    | some d => if d.tagline = "" then "N/A" else d.tagline
    | none => "N/A"

/-- The features line: the manual list when non-empty, else the scraped
list, joined by a comma; `N/A` when the join is empty. -/
def amendedFeatures (c : Competitor) : String :=
  let fs := if c.features = [] then
      (match c.rawScrapedData with
       | some d => d.features
       | none => [])
    else c.features
  if String.intercalate ", " fs = "" then "N/A" else String.intercalate ", " fs

/-- The pricing line: stored value first, else scraped, else `N/A`. -/
def amendedPricing (c : Competitor) : String :=
  match c.pricing with
  | some s =>
    if s = "" then
      match c.rawScrapedData with
      | some d => if d.pricing = "" then "N/A" else d.pricing
      | none => "N/A"
    else s
  | none =>
    match c.rawScrapedData with
    | some d => if d.pricing = "" then "N/A" else d.pricing
    | none => "N/A"

/-- The page-content excerpt: the first 1500 characters of the scraped
body text, empty when nothing was scraped. -/
def amendedPageContent (c : Competitor) : String :=
  match c.rawScrapedData with
  | some d => (d.bodyText.data.take 1500).asString
  | none => ""

/-- The per-competitor block assembled from the amended field selectors. -/
def amendedCompetitorDetail (c : Competitor) : String :=
  "\nCompetitor: " ++ c.name ++
  "\nURL: " ++ strOr c.url "N/A" ++
  "\nDescription: " ++ amendedDescription c ++
  "\nTagline: " ++ amendedTagline c ++
  "\nFeatures: " ++ amendedFeatures c ++
  "\nPricing: " ++ amendedPricing c ++
  "\nPage Content: " ++ amendedPageContent c

/-- The per-competitor block as claim C3 states it: description and
tagline with scraped-wins-over-manual precedence, everything else as in
the code. -/
def specScrapedWinsDetail (c : Competitor) : String :=
  "\nCompetitor: " ++ c.name ++
  "\nURL: " ++ strOr c.url "N/A" ++
  "\nDescription: " ++
    strOr (c.rawScrapedData.map (fun d => d.description)) (strOr c.description "N/A") ++
  "\nTagline: " ++
    strOr (c.rawScrapedData.map (fun d => d.tagline)) (strOr c.tagline "N/A") ++
  "\nFeatures: " ++
    strNonEmptyOr
      (String.intercalate ", "
        (if c.features.length != 0 then c.features
         else match c.rawScrapedData with
              | some d => d.features
              | none => []))
      "N/A" ++
  "\nPricing: " ++ strOr c.pricing (strOr (c.rawScrapedData.map (fun d => d.pricing)) "N/A") ++
  "\nPage Content: " ++
    jsSlice (match c.rawScrapedData with
             | some d => d.bodyText
             | none => "") 1500

/-- A competitor with both a manually entered and a (different) scraped
description and tagline. -/
def manualVsScrapedCompetitor : Competitor :=
  { baseCompetitor with
    description := some "Manual description"
    tagline := some "Manual tagline"
    rawScrapedData := some { baseScraped with
      description := "Scraped description"
      tagline := "Scraped tagline" } }

/-- A small document exercising the extractor. -/
def witnessDoc : Doc :=
  { baseDoc with
    bodyText := "  hello   world  "
    liTexts := ["a feature of fair length", "x"]
    pricingText := some " $9/mo " }

/-- `n` copies of the two-character block `"a "`. -/
def altAB : Nat → List Char
  | 0 => []
  | n + 1 => 'a' :: ' ' :: altAB n

/-- A document whose collapsed, trimmed body text is 5002 characters long
with a space at position 4999. -/
def longBodyDoc : Doc :=
  { baseDoc with bodyText := (altAB 2500 ++ ['b', 'c']).asString }

/-! ## C1 — the aggregate score -/

/-- The arithmetic mean, per the amended claim C1, of the numeric
`overallScore`/`overall` values over all entries of the score array;
`none` when no entry carries a numeric overall value. -/
def meanNumericOverall (entries : List ScoreEntryJ) : Option Rat :=
  match entries.filterMap (fun e => numOf (coal e.overallScore e.overall)) with
  | [] => none
  | v :: vs => some ((v :: vs).sum / (((v :: vs).length : Nat) : Rat))

/-- The aggregate as claim C1 states it: the mean over the numeric
overall values of only those entries that matched a competitor. -/
def meanMatchedOverall (snapshot : List Competitor) (entries : List ScoreEntryJ) :
    Option Rat :=
  meanNumericOverall (entries.filter (fun e =>
    (snapshot.find? (fun c => some c.id == e.competitorId || some c.name == e.name)).isSome))

/-- The single competitor of the aggregate examples. -/
def cX : Competitor := { baseCompetitor with id := "c1", name := "X" }

/-- An analysis holding only `cX`. -/
def aggAnalysis : AnalysisState := { baseAnalysis with competitors := [cX] }

/-- A score entry matching competitor `X` with overall score 10. -/
def eX : ScoreEntryJ :=
  { baseEntry with name := some "X", overallScore := some (.jnum 10) }

/-- A score entry matching no competitor, with overall score 30. -/
def eY : ScoreEntryJ :=
  { baseEntry with name := some "Y", overallScore := some (.jnum 30) }

/-- The engine response carrying the two entries above. -/
def rTwoEntries : EngineResult :=
  { competitor_scores := some (.jarr [eX, eY]), patterns := none }

/-! ## C2 — non-array score values crash the analysis -/

/-- An engine response whose `competitor_scores` is a truthy non-array. -/
def rNonArray : EngineResult :=
  { competitor_scores := some (.jnum 5), patterns := none }

/-! ## C8 — status transitions performed by the coordinators -/

/-- The transition relation claim C8 asserts for the analysis lifecycle:
`DRAFT → SCRAPING → ANALYZING → COMPLETED`, `FAILED` from `SCRAPING` or
`ANALYZING`, and retry from `FAILED` back into `SCRAPING`/`ANALYZING`. -/
def allowedTransition : AnalysisStatus → AnalysisStatus → Bool
  | .DRAFT, .SCRAPING => true
  | .SCRAPING, .ANALYZING => true
  | .ANALYZING, .COMPLETED => true
  | .SCRAPING, .FAILED => true
  | .ANALYZING, .FAILED => true
  | .FAILED, .SCRAPING => true
  | .FAILED, .ANALYZING => true
  | _, _ => false

/-! ## Generic lemmas about row updates -/

theorem successUpdate_id (c : Competitor) (d : ScrapedData) (now : String)
    (x : Competitor) : (successUpdate c d now x).id = x.id := rfl

theorem failUpdate_id (msg : String) (x : Competitor) :
    (failUpdate msg x).id = x.id := rfl

/-- `updateCompWith` touches only rows whose id is `cid`; looking a row up
afterwards finds the (possibly rewritten) row found before. -/
theorem find?_updateCompWith (comps : List Competitor) (cid : String)
    (f : Competitor → Competitor) (hid : ∀ x, (f x).id = x.id) (d : String) :
    (updateCompWith comps cid f).find? (fun y => y.id == d) =
      (comps.find? (fun y => y.id == d)).map
        (fun x => if x.id == cid then f x else x) := by
  induction comps with
  | nil => simp [updateCompWith]
  | cons y t ih =>
    have hmap : updateCompWith (y :: t) cid f =
        (if y.id == cid then f y else y) :: updateCompWith t cid f := by
      simp [updateCompWith]
    by_cases hd : (y.id == d) = true
    · have hgd : ((if y.id == cid then f y else y).id == d) = true := by
        by_cases hc : (y.id == cid) = true
        · simpa [hc, hid] using hd
        · simpa [hc] using hd
      rw [hmap]
      simp only [List.find?]
      rw [hgd, hd]
      simp
    · have hd' : (y.id == d) = false := Bool.eq_false_iff.mpr hd
      have hgd : ((if y.id == cid then f y else y).id == d) = false := by
        by_cases hc : (y.id == cid) = true
        · simpa [hc, hid] using hd'
        · simpa [hc] using hd'
      rw [hmap]
      simp only [List.find?]
      rw [hgd, hd']
      simpa using ih

/-- Rows whose id differs from `cid` are unchanged by `updateCompWith`. -/
theorem updateCompWith_frame (comps : List Competitor) (cid : String)
    (f : Competitor → Competitor) (x : Competitor) (hx : x ∈ comps)
    (hne : (x.id == cid) = false) : x ∈ updateCompWith comps cid f := by
  have : x = if x.id == cid then f x else x := by simp [hne]
  rw [this]
  exact List.mem_map_of_mem _ hx

/-! ## C5 — non-http(s) schemes fail before any network I/O -/

/-- C5: for every URL whose parsed scheme is neither `http:` nor `https:`,
`scrapeUrl` fails with the invalid-URL error and performs zero network
requests, whatever the transport and parser would have returned. -/
theorem scrapeUrl_invalid_scheme (protocol : String)
    (h : protocol ≠ "http:" ∧ protocol ≠ "https:")
    (fetch : Except String String) (parse : String → Doc) (url now : String) :
    scrapeUrlModel protocol fetch parse url now =
      (.error "Only HTTP/HTTPS URLs are supported", 0) := by
  have h1 : (protocol == "http:") = false := beq_eq_false_iff_ne.mpr h.1
  have h2 : (protocol == "https:") = false := beq_eq_false_iff_ne.mpr h.2
  have hc : (["http:", "https:"].contains protocol) = false := by
    show List.elem protocol ["http:", "https:"] = false
    simp only [List.elem]
    rw [h1, h2]
  unfold scrapeUrlModel
  rw [hc]
  simp

/-- C5 witness: the `ftp:` scheme is rejected with zero network calls even
though the transport would have answered. -/
theorem scrapeUrl_invalid_scheme_witness :
    scrapeUrlModel "ftp:" (.ok "<html></html>") (fun _ => baseDoc)
        "ftp://example.test" "t0" =
      (.error "Only HTTP/HTTPS URLs are supported", 0) :=
  scrapeUrl_invalid_scheme "ftp:" (by decide) (.ok "<html></html>")
    (fun _ => baseDoc) "ftp://example.test" "t0"

/-! ## C9 — what a `null` return of `scrapeCompetitor` means -/

/-- C9 (amended): `scrapeCompetitor` returns scraped data exactly when the
competitor row exists, its url is truthy, and the scrape succeeds; every
other case — nonexistent id, missing/empty url, failed scrape — returns
`null`, and no `NotFound` error is ever raised. -/
theorem scrapeCompetitor_data_iff (comps : List Competitor) (cid : String)
    (oracle : String → Except String ScrapedData) (now : String) (d : ScrapedData) :
    (scrapeCompetitorDB comps cid oracle now).2 = some d ↔
      ∃ c, comps.find? (fun y => y.id == cid) = some c ∧
        urlTruthy c.url = true ∧ oracle cid = .ok d := by
  unfold scrapeCompetitorDB
  cases hf : comps.find? (fun y => y.id == cid) with
  | none => simp
  | some c =>
    by_cases hu : urlTruthy c.url = true
    · cases ho : oracle cid with
      | ok data => simp [hu, ho]
      | error e => simp [hu, ho]
    · have hu' : urlTruthy c.url = false := Bool.eq_false_iff.mpr hu
      simp [hu']

/-- C9 counterexample: the claimed equivalence "null is returned iff the
competitor exists and has no URL" is false.  A nonexistent competitor id
yields `null` (no `NotFound` is raised), and a failed scrape of an
existing competitor with a URL also yields `null`. -/
theorem scrapeCompetitor_null_claim_false :
    (¬ ((scrapeCompetitorDB ([] : List Competitor) "c1"
          (fun _ => .error "boom") "t0").2 = none ↔
        ∃ c, ([] : List Competitor).find? (fun y => y.id == "c1") = some c ∧
          urlTruthy c.url = false)) ∧
    (¬ ((scrapeCompetitorDB [webCompetitor] "c1"
          (fun _ => .error "boom") "t0").2 = none ↔
        ∃ c, [webCompetitor].find? (fun y => y.id == "c1") = some c ∧
          urlTruthy c.url = false)) := by
  constructor
  · intro h
    obtain ⟨c, hc, _⟩ := h.mp (by decide)
    simp [List.find?] at hc
  · intro h
    obtain ⟨c, hc, hu⟩ := h.mp (by decide)
    have hfind : [webCompetitor].find? (fun y => y.id == "c1") = some webCompetitor := by
      decide
    rw [hfind] at hc
    have hc' : webCompetitor = c := Option.some.inj hc
    rw [← hc'] at hu
    exact absurd hu (by decide)

/-! ## C6 — success path of `scrapeCompetitor` -/

/-- C6: when the competitor exists, has a truthy URL and the scrape
succeeds with `d`, the persisted row records status `COMPLETED`, the
scrape timestamp and the raw blob, and each of tagline, description,
features and pricing is overwritten exactly when the scraped value is
non-empty, the pre-existing value surviving otherwise; the scraped data
is returned. -/
theorem scrapeCompetitor_success_persists (comps : List Competitor) (cid : String)
    (oracle : String → Except String ScrapedData) (now : String)
    (c : Competitor) (d : ScrapedData)
    (hf : comps.find? (fun y => y.id == cid) = some c)
    (hu : urlTruthy c.url = true)
    (ho : oracle cid = .ok d) :
    ∃ r, (scrapeCompetitorDB comps cid oracle now).1.find? (fun y => y.id == cid) = some r ∧
      r.scrapeStatus = .COMPLETED ∧
      r.scrapedAt = some now ∧
      r.rawScrapedData = some d ∧
      (d.tagline ≠ "" → r.tagline = some d.tagline) ∧
      (d.tagline = "" → r.tagline = c.tagline) ∧
      (d.description ≠ "" → r.description = some d.description) ∧
      (d.description = "" → r.description = c.description) ∧
      (d.features ≠ [] → r.features = d.features) ∧
      (d.features = [] → r.features = c.features) ∧
      (d.pricing ≠ "" → r.pricing = some d.pricing) ∧
      (d.pricing = "" → r.pricing = c.pricing) ∧
      (scrapeCompetitorDB comps cid oracle now).2 = some d := by
  have hcid : (c.id == cid) = true := by
    have h := List.find?_some hf
    simpa using h
  have hceq : c.id = cid := by simpa using hcid
  have hmain : scrapeCompetitorDB comps cid oracle now =
      (updateCompWith (updateCompWith comps cid (fun x => { x with scrapeStatus := .SCRAPING }))
        cid (successUpdate c d now), some d) := by
    unfold scrapeCompetitorDB
    rw [hf]
    simp [hu, ho]
  have h1 : (updateCompWith comps cid
        (fun x => { x with scrapeStatus := ScrapeStatus.SCRAPING })).find?
        (fun y => y.id == cid) =
      some { c with scrapeStatus := ScrapeStatus.SCRAPING } := by
    rw [find?_updateCompWith comps cid
      (fun x => { x with scrapeStatus := ScrapeStatus.SCRAPING }) (fun x => rfl) cid, hf]
    simp [hceq]
  have h2 : (updateCompWith (updateCompWith comps cid
        (fun x => { x with scrapeStatus := ScrapeStatus.SCRAPING }))
        cid (successUpdate c d now)).find? (fun y => y.id == cid) =
      some (successUpdate c d now { c with scrapeStatus := ScrapeStatus.SCRAPING }) := by
    rw [find?_updateCompWith _ cid (successUpdate c d now) (successUpdate_id c d now) cid, h1]
    simp [hceq]
  refine ⟨successUpdate c d now { c with scrapeStatus := ScrapeStatus.SCRAPING },
    ?_, rfl, rfl, rfl, ?_, ?_, ?_, ?_, ?_, ?_, ?_, ?_, ?_⟩
  · rw [hmain]
    exact h2
  · intro hne
    simp [successUpdate, strOrOpt, hne]
  · intro he
    simp [successUpdate, strOrOpt, he]
  · intro hne
    simp [successUpdate, strOrOpt, hne]
  · intro he
    simp [successUpdate, strOrOpt, he]
  · intro hne
    have hlen : (d.features.length != 0) = true := by
      simpa using hne
    simp [successUpdate, hlen]
  · intro he
    simp [successUpdate, he]
  · intro hne
    simp [successUpdate, strOrOpt, hne]
  · intro he
    simp [successUpdate, strOrOpt, he]
  · rw [hmain]

/-- C6 witness: scraping `webCompetitor` (no manual fields) with
`sampleScraped` overwrites tagline and pricing but leaves the (empty)
description and features untouched. -/
theorem scrapeCompetitor_success_persists_witness :
    ∃ r, (scrapeCompetitorDB [webCompetitor] "c1"
        (fun _ => .ok sampleScraped) "t1").1.find? (fun y => y.id == "c1") = some r ∧
      r.scrapeStatus = .COMPLETED ∧
      r.scrapedAt = some "t1" ∧
      r.rawScrapedData = some sampleScraped ∧
      (sampleScraped.tagline ≠ "" → r.tagline = some sampleScraped.tagline) ∧
      (sampleScraped.tagline = "" → r.tagline = webCompetitor.tagline) ∧
      (sampleScraped.description ≠ "" → r.description = some sampleScraped.description) ∧
      (sampleScraped.description = "" → r.description = webCompetitor.description) ∧
      (sampleScraped.features ≠ [] → r.features = sampleScraped.features) ∧
      (sampleScraped.features = [] → r.features = webCompetitor.features) ∧
      (sampleScraped.pricing ≠ "" → r.pricing = some sampleScraped.pricing) ∧
      (sampleScraped.pricing = "" → r.pricing = webCompetitor.pricing) ∧
      (scrapeCompetitorDB [webCompetitor] "c1"
        (fun _ => .ok sampleScraped) "t1").2 = some sampleScraped :=
  scrapeCompetitor_success_persists [webCompetitor] "c1"
    (fun _ => .ok sampleScraped) "t1" webCompetitor sampleScraped
    (by decide) (by decide) rfl

/-! ## C10 — failure path of `scrapeCompetitor` writes only status and error -/

/-- C10: when the scrape of an existing competitor with a truthy URL
fails, the persisted row changes only `scrapeStatus` (to `FAILED`) and
`scrapeError` (to the failure message, defaulted when empty); every other
column — scores, blobs, timestamps and all manually entered fields — is
exactly as before, other rows are untouched, and `null` is returned. -/
theorem scrapeCompetitor_failure_frame (comps : List Competitor) (cid : String)
    (oracle : String → Except String ScrapedData) (now : String)
    (c : Competitor) (msg : String)
    (hf : comps.find? (fun y => y.id == cid) = some c)
    (hu : urlTruthy c.url = true)
    (ho : oracle cid = .error msg) :
    ∃ r, (scrapeCompetitorDB comps cid oracle now).1.find? (fun y => y.id == cid) = some r ∧
      r.scrapeStatus = .FAILED ∧
      r.scrapeError = some (if msg = "" then "Scrape failed" else msg) ∧
      r.id = c.id ∧ r.name = c.name ∧ r.url = c.url ∧
      r.description = c.description ∧ r.category = c.category ∧
      r.tagline = c.tagline ∧ r.features = c.features ∧
      r.pricing = c.pricing ∧ r.strengths = c.strengths ∧
      r.weaknesses = c.weaknesses ∧ r.scrapedAt = c.scrapedAt ∧
      r.rawScrapedData = c.rawScrapedData ∧
      r.overallScore = c.overallScore ∧ r.featureScore = c.featureScore ∧
      r.pricingScore = c.pricingScore ∧ r.uxScore = c.uxScore ∧
      r.marketScore = c.marketScore ∧ r.scores = c.scores ∧
      r.analysisId = c.analysisId ∧
      (∀ x ∈ comps, (x.id == cid) = false →
        x ∈ (scrapeCompetitorDB comps cid oracle now).1) ∧
      (scrapeCompetitorDB comps cid oracle now).2 = none := by
  have hcid : (c.id == cid) = true := by
    have h := List.find?_some hf
    simpa using h
  have hceq : c.id = cid := by simpa using hcid
  have hmain : scrapeCompetitorDB comps cid oracle now =
      (updateCompWith (updateCompWith comps cid (fun x => { x with scrapeStatus := .SCRAPING }))
        cid (failUpdate msg), none) := by
    unfold scrapeCompetitorDB
    rw [hf]
    simp [hu, ho]
  have h1 : (updateCompWith comps cid
        (fun x => { x with scrapeStatus := ScrapeStatus.SCRAPING })).find?
        (fun y => y.id == cid) =
      some { c with scrapeStatus := ScrapeStatus.SCRAPING } := by
    rw [find?_updateCompWith comps cid
      (fun x => { x with scrapeStatus := ScrapeStatus.SCRAPING }) (fun x => rfl) cid, hf]
    simp [hceq]
  have h2 : (updateCompWith (updateCompWith comps cid
        (fun x => { x with scrapeStatus := ScrapeStatus.SCRAPING }))
        cid (failUpdate msg)).find? (fun y => y.id == cid) =
      some (failUpdate msg { c with scrapeStatus := ScrapeStatus.SCRAPING }) := by
    rw [find?_updateCompWith _ cid (failUpdate msg) (failUpdate_id msg) cid, h1]
    simp [hceq]
  refine ⟨failUpdate msg { c with scrapeStatus := ScrapeStatus.SCRAPING },
    ?_, rfl, ?_, rfl, rfl, rfl, rfl, rfl, rfl, rfl, rfl, rfl, rfl, rfl, rfl,
    rfl, rfl, rfl, rfl, rfl, rfl, rfl, ?_, ?_⟩
  · rw [hmain]
    exact h2
  · simp [failUpdate, strNonEmptyOr]
  · intro x hx hne
    rw [hmain]
    exact updateCompWith_frame _ cid _ x
      (updateCompWith_frame _ cid _ x hx hne) hne
  · rw [hmain]

/-- C10 witness: a failing scrape with an empty error message marks the
row `FAILED` with the default message and changes nothing else. -/
theorem scrapeCompetitor_failure_frame_witness :
    ∃ r, (scrapeCompetitorDB [webCompetitor] "c1"
        (fun _ => .error "") "t1").1.find? (fun y => y.id == "c1") = some r ∧
      r.scrapeStatus = .FAILED ∧
      r.scrapeError = some (if "" = "" then "Scrape failed" else "") ∧
      r.id = webCompetitor.id ∧ r.name = webCompetitor.name ∧ r.url = webCompetitor.url ∧
      r.description = webCompetitor.description ∧ r.category = webCompetitor.category ∧
      r.tagline = webCompetitor.tagline ∧ r.features = webCompetitor.features ∧
      r.pricing = webCompetitor.pricing ∧ r.strengths = webCompetitor.strengths ∧
      r.weaknesses = webCompetitor.weaknesses ∧ r.scrapedAt = webCompetitor.scrapedAt ∧
      r.rawScrapedData = webCompetitor.rawScrapedData ∧
      r.overallScore = webCompetitor.overallScore ∧
      r.featureScore = webCompetitor.featureScore ∧
      r.pricingScore = webCompetitor.pricingScore ∧ r.uxScore = webCompetitor.uxScore ∧
      r.marketScore = webCompetitor.marketScore ∧ r.scores = webCompetitor.scores ∧
      r.analysisId = webCompetitor.analysisId ∧
      (∀ x ∈ [webCompetitor], (x.id == "c1") = false →
        x ∈ (scrapeCompetitorDB [webCompetitor] "c1" (fun _ => .error "") "t1").1) ∧
      (scrapeCompetitorDB [webCompetitor] "c1" (fun _ => .error "") "t1").2 = none :=
  scrapeCompetitor_failure_frame [webCompetitor] "c1"
    (fun _ => .error "") "t1" webCompetitor ""
    (by decide) (by decide) rfl

theorem scrapeResult_id (c : Competitor) (r : Except String ScrapedData)
    (now : String) : (scrapeResult c r now).id = c.id := by
  unfold scrapeResult
  by_cases hu : urlTruthy c.url = true
  · cases r with
    | ok d => simp [hu, successUpdate_id]
    | error e => simp [hu, failUpdate_id]
  · simp [Bool.eq_false_iff.mpr hu]

theorem successUpdate_scraping (c : Competitor) (d : ScrapedData) (now : String) :
    successUpdate c d now { c with scrapeStatus := ScrapeStatus.SCRAPING } =
      successUpdate c d now c := rfl

theorem failUpdate_scraping (msg : String) (c : Competitor) :
    failUpdate msg { c with scrapeStatus := ScrapeStatus.SCRAPING } =
      failUpdate msg c := rfl

/-- Under distinct row ids, the row `find?` returns is the only row with
that id. -/
theorem find?_id_unique (comps : List Competitor) (cid : String)
    (hnd : (comps.map (fun c => c.id)).Nodup) (c : Competitor)
    (hf : comps.find? (fun y => y.id == cid) = some c) :
    ∀ x ∈ comps, (x.id == cid) = true → x = c := by
  induction comps with
  | nil => simp at hf
  | cons y t ih =>
    have hnd' : (t.map (fun c => c.id)).Nodup := (List.nodup_cons.mp hnd).2
    have hyid : y.id ∉ t.map (fun c => c.id) := (List.nodup_cons.mp hnd).1
    intro x hx hxc
    by_cases hy : (y.id == cid) = true
    · have hcy : c = y := by
        have : List.find? (fun y => y.id == cid) (y :: t) = some y := by
          simp [List.find?, hy]
        rw [this] at hf
        exact (Option.some.inj hf).symm
      rcases List.mem_cons.mp hx with hxy | hxt
      · rw [hxy, hcy]
      · exfalso
        have hxid : x.id = cid := by simpa using hxc
        have hyid' : y.id = cid := by simpa using hy
        exact hyid (by
          rw [hyid', ← hxid]
          exact List.mem_map_of_mem _ hxt)
    · have hy' : (y.id == cid) = false := Bool.eq_false_iff.mpr hy
      have hf' : t.find? (fun y => y.id == cid) = some c := by
        rw [List.find?] at hf
        rw [hy'] at hf
        exact hf
      rcases List.mem_cons.mp hx with hxy | hxt
      · exfalso
        rw [hxy] at hxc
        exact hy hxc
      · exact ih hnd' hf' x hxt hxc

/-- Under distinct row ids, looking up a member row by its own id finds
exactly that row. -/
theorem find?_id_self (comps : List Competitor)
    (hnd : (comps.map (fun c => c.id)).Nodup) (x : Competitor) (hx : x ∈ comps) :
    comps.find? (fun y => y.id == x.id) = some x := by
  induction comps with
  | nil => simp at hx
  | cons y t ih =>
    have hnd' : (t.map (fun c => c.id)).Nodup := (List.nodup_cons.mp hnd).2
    have hyid : y.id ∉ t.map (fun c => c.id) := (List.nodup_cons.mp hnd).1
    rcases List.mem_cons.mp hx with hxy | hxt
    · rw [hxy]
      simp [List.find?]
    · have hne : (y.id == x.id) = false := by
        apply beq_eq_false_iff_ne.mpr
        intro he
        exact hyid (by
          rw [he]
          exact List.mem_map_of_mem _ hxt)
      rw [List.find?, hne]
      exact ih hnd' hxt

/-- The double row update of `scrapeCompetitor` (mark `SCRAPING`, then
write the outcome) collapses to one map over the rows. -/
theorem updateCompWith_twice (comps : List Competitor) (cid : String)
    (F : Competitor → Competitor) :
    updateCompWith (updateCompWith comps cid
        (fun x => { x with scrapeStatus := ScrapeStatus.SCRAPING })) cid F =
      comps.map (fun x => if x.id == cid then
        F { x with scrapeStatus := ScrapeStatus.SCRAPING } else x) := by
  unfold updateCompWith
  rw [List.map_map]
  refine List.map_congr_left (fun x _ => ?_)
  by_cases hxc : (x.id == cid) = true
  · simp [Function.comp, hxc]
  · have hxc' : (x.id == cid) = false := Bool.eq_false_iff.mpr hxc
    simp [Function.comp, hxc']

/-- Full characterization of one `scrapeCompetitor` call on a table with
distinct ids: exactly the addressed row changes, to its own
`scrapeResult`, and data is returned iff that row exists, has a truthy
url and its scrape succeeded. -/
theorem scrapeCompetitorDB_eq (comps : List Competitor) (cid : String)
    (oracle : String → Except String ScrapedData) (now : String)
    (hnd : (comps.map (fun c => c.id)).Nodup) :
    scrapeCompetitorDB comps cid oracle now =
      (comps.map (fun x => if x.id == cid then scrapeResult x (oracle cid) now else x),
       match comps.find? (fun y => y.id == cid) with
       | some c => if urlTruthy c.url then exceptToOption (oracle cid) else none
       | none => none) := by
  cases hf : comps.find? (fun y => y.id == cid) with
  | none =>
    have hall : ∀ x ∈ comps, (x.id == cid) = false := by
      intro x hx
      have h := List.find?_eq_none.mp hf x hx
      simpa using h
    have hmap : comps.map
        (fun x => if x.id == cid then scrapeResult x (oracle cid) now else x) = comps := by
      have h1 : comps.map
          (fun x => if x.id == cid then scrapeResult x (oracle cid) now else x) =
          comps.map id :=
        List.map_congr_left (fun x hx => by simp [hall x hx])
      rw [h1, List.map_id]
    unfold scrapeCompetitorDB
    rw [hf, hmap]
  | some c =>
    have hcid : (c.id == cid) = true := by simpa using List.find?_some hf
    have huniq : ∀ x ∈ comps, (x.id == cid) = true → x = c :=
      find?_id_unique comps cid hnd c hf
    by_cases hu : urlTruthy c.url = true
    · cases ho : oracle cid with
      | ok d =>
        have hlist : comps.map (fun x => if x.id == cid then
              successUpdate c d now { x with scrapeStatus := ScrapeStatus.SCRAPING } else x) =
            comps.map (fun x => if x.id == cid then scrapeResult x (oracle cid) now else x) := by
          refine List.map_congr_left (fun x hx => ?_)
          by_cases hxc : (x.id == cid) = true
          · rw [if_pos hxc, if_pos hxc]
            have hxe : x = c := huniq x hx hxc
            rw [hxe, successUpdate_scraping]
            rw [ho]
            unfold scrapeResult
            rw [hu]
            simp
          · have hxc' : (x.id == cid) = false := Bool.eq_false_iff.mpr hxc
            rw [if_neg hxc, if_neg hxc]
        unfold scrapeCompetitorDB
        rw [hf]
        simp only [hu, ho]
        rw [updateCompWith_twice, hlist]
        simp [hu, ho, exceptToOption]
      | error e =>
        have hlist : comps.map (fun x => if x.id == cid then
              failUpdate e { x with scrapeStatus := ScrapeStatus.SCRAPING } else x) =
            comps.map (fun x => if x.id == cid then scrapeResult x (oracle cid) now else x) := by
          refine List.map_congr_left (fun x hx => ?_)
          by_cases hxc : (x.id == cid) = true
          · rw [if_pos hxc, if_pos hxc]
            have hxe : x = c := huniq x hx hxc
            rw [hxe, failUpdate_scraping]
            rw [ho]
            unfold scrapeResult
            rw [hu]
            simp
          · have hxc' : (x.id == cid) = false := Bool.eq_false_iff.mpr hxc
            rw [if_neg hxc, if_neg hxc]
        unfold scrapeCompetitorDB
        rw [hf]
        simp only [hu, ho]
        rw [updateCompWith_twice, hlist]
        simp [hu, ho, exceptToOption]
    · have hu' : urlTruthy c.url = false := Bool.eq_false_iff.mpr hu
      have hmap : comps.map
          (fun x => if x.id == cid then scrapeResult x (oracle cid) now else x) = comps := by
        have h1 : comps.map
            (fun x => if x.id == cid then scrapeResult x (oracle cid) now else x) =
            comps.map id := by
          refine List.map_congr_left (fun x hx => ?_)
          by_cases hxc : (x.id == cid) = true
          · rw [if_pos hxc]
            have hxe : x = c := huniq x hx hxc
            rw [hxe]
            unfold scrapeResult
            rw [hu']
            simp
          · have hxc' : (x.id == cid) = false := Bool.eq_false_iff.mpr hxc
            rw [if_neg hxc]
            rfl
        rw [h1, List.map_id]
      unfold scrapeCompetitorDB
      rw [hf, hmap]
      simp [hu']

/-- The sequential scrape loop over rows with distinct ids: every selected
row ends in the state its own scrape outcome dictates (independent of the
other rows' outcomes), unselected rows are untouched, and the returned
count is the number of selected rows whose own scrape succeeded. -/
theorem goScrape_spec (oracle : String → Except String ScrapedData) (now : String) :
    ∀ (sel comps : List Competitor),
    (comps.map (fun c => c.id)).Nodup →
    (sel.map (fun c => c.id)).Nodup →
    (∀ s ∈ sel, comps.find? (fun y => y.id == s.id) = some s) →
    goScrape comps (sel.map (fun c => c.id)) oracle now =
      (comps.map (fun x => if (sel.map (fun c => c.id)).contains x.id then
          scrapeResult x (oracle x.id) now else x),
       sel.countP (fun s => urlTruthy s.url && exceptOk (oracle s.id))) := by
  intro sel
  induction sel with
  | nil =>
    intro comps _ _ _
    simp [goScrape]
  | cons s rest ih =>
    intro comps hnd hselnd hsel
    have hs : comps.find? (fun y => y.id == s.id) = some s := hsel s (List.mem_cons_self s rest)
    have hrestnd : (rest.map (fun c => c.id)).Nodup := (List.nodup_cons.mp hselnd).2
    have hsid : s.id ∉ rest.map (fun c => c.id) := (List.nodup_cons.mp hselnd).1
    have hstep := scrapeCompetitorDB_eq comps s.id oracle now hnd
    -- the rows after the first call
    have hids : (comps.map (fun x => if x.id == s.id then
        scrapeResult x (oracle s.id) now else x)).map (fun c => c.id) =
        comps.map (fun c => c.id) := by
      rw [List.map_map]
      refine List.map_congr_left (fun x _ => ?_)
      by_cases hxc : (x.id == s.id) = true
      · simp [Function.comp, hxc, scrapeResult_id]
      · have hxc' : (x.id == s.id) = false := Bool.eq_false_iff.mpr hxc
        simp [Function.comp, hxc']
    have hnd1 : ((comps.map (fun x => if x.id == s.id then
        scrapeResult x (oracle s.id) now else x)).map (fun c => c.id)).Nodup := by
      rw [hids]; exact hnd
    have hsel1 : ∀ t ∈ rest, (comps.map (fun x => if x.id == s.id then
        scrapeResult x (oracle s.id) now else x)).find? (fun y => y.id == t.id) = some t := by
      intro t ht
      have htne : (t.id == s.id) = false := by
        apply beq_eq_false_iff_ne.mpr
        intro he
        exact hsid (by rw [← he]; exact List.mem_map_of_mem _ ht)
      have hmap : comps.map (fun x => if x.id == s.id then
          scrapeResult x (oracle s.id) now else x) =
          updateCompWith comps s.id (fun x => scrapeResult x (oracle s.id) now) := rfl
      rw [hmap, find?_updateCompWith comps s.id
        (fun x => scrapeResult x (oracle s.id) now) (fun x => scrapeResult_id x _ now) t.id,
        hsel t (List.mem_cons_of_mem s ht)]
      simp [htne]
      intro he
      exact absurd he (beq_eq_false_iff_ne.mp htne)
    have hih := ih (comps.map (fun x => if x.id == s.id then
        scrapeResult x (oracle s.id) now else x)) hnd1 hrestnd hsel1
    -- unfold one step of the loop
    show goScrape comps (s.id :: rest.map (fun c => c.id)) oracle now = _
    rw [goScrape]
    rw [hstep]
    simp only []
    rw [hih]
    rw [Prod.mk.injEq]
    constructor
    · -- the rows: compose the two maps
      rw [List.map_map]
      refine List.map_congr_left (fun x _ => ?_)
      by_cases hxc : (x.id == s.id) = true
      · have hxe : x.id = s.id := by simpa using hxc
        have hfs : (if x.id == s.id then scrapeResult x (oracle s.id) now else x) =
            scrapeResult x (oracle s.id) now := if_pos hxc
        have hnotrest : ((rest.map (fun c => c.id)).contains x.id) = false := by
          by_cases hmem : x.id ∈ rest.map (fun c => c.id)
          · exact absurd (hxe ▸ hmem) hsid
          · exact Bool.eq_false_iff.mpr (fun hcon => hmem (List.elem_iff.mp hcon))
        have hcons : ((List.map (fun c => c.id) (s :: rest)).contains x.id) = true := by
          simp [List.contains, List.elem, hxc]
        simp only [Function.comp]
        rw [hfs, scrapeResult_id, hnotrest, hcons]
        simp [hxe]
      · have hxc' : (x.id == s.id) = false := Bool.eq_false_iff.mpr hxc
        have hfs : (if x.id == s.id then scrapeResult x (oracle s.id) now else x) = x := by
          simp [hxc']
        have hcons : ((List.map (fun c => c.id) (s :: rest)).contains x.id) =
            ((List.map (fun c => c.id) rest).contains x.id) := by
          simp [List.contains, List.elem, hxc']
        simp only [Function.comp]
        rw [hfs, hcons]
    · -- the count
      rw [hs]
      rw [List.countP_cons]
      have hisome : (if urlTruthy s.url = true then exceptToOption (oracle s.id)
            else none).isSome = (urlTruthy s.url && exceptOk (oracle s.id)) := by
        by_cases hu : urlTruthy s.url = true
        · cases ho : oracle s.id with
          | ok d => simp [hu, ho, exceptToOption, exceptOk]
          | error e => simp [hu, ho, exceptToOption, exceptOk]
        · have hu' : urlTruthy s.url = false := Bool.eq_false_iff.mpr hu
          simp [hu']
      rw [hisome]
      exact Nat.add_comm _ _

/-- C4: on a table with distinct row ids, `scrapeAllPending` marks the
analysis `SCRAPING`, processes exactly the competitors whose scrape status
is `PENDING` and whose URL is non-null, leaves every other row unchanged,
drives each selected row to the state its own scrape outcome dictates
(so one row's failure never affects another row's processing), and
returns the number of selected competitors whose scrape succeeded — not
the number attempted. -/
theorem scrapeAllPending_spec (a : AnalysisState)
    (oracle : String → Except String ScrapedData) (now : String)
    (hnd : (a.competitors.map (fun c => c.id)).Nodup) :
    (scrapeAllPendingModel a oracle now).1.status = .SCRAPING ∧
    (scrapeAllPendingModel a oracle now).1.competitors =
      a.competitors.map (fun c =>
        if isSelected c then scrapeResult c (oracle c.id) now else c) ∧
    (scrapeAllPendingModel a oracle now).2 =
      (a.competitors.filter isSelected).countP
        (fun c => urlTruthy c.url && exceptOk (oracle c.id)) := by
  have hsub : List.Sublist (a.competitors.filter isSelected) a.competitors :=
    List.filter_sublist a.competitors
  have hselnd : ((a.competitors.filter isSelected).map (fun c => c.id)).Nodup :=
    hnd.sublist (hsub.map (fun c => c.id))
  have hsel : ∀ s ∈ a.competitors.filter isSelected,
      a.competitors.find? (fun y => y.id == s.id) = some s := by
    intro t ht
    exact find?_id_self a.competitors hnd t (List.mem_of_mem_filter ht)
  have hg := goScrape_spec oracle now (a.competitors.filter isSelected)
    a.competitors hnd hselnd hsel
  have h1 : (scrapeAllPendingModel a oracle now).1.competitors =
      (goScrape a.competitors
        ((a.competitors.filter isSelected).map (fun c => c.id)) oracle now).1 := rfl
  have h2 : (scrapeAllPendingModel a oracle now).2 =
      (goScrape a.competitors
        ((a.competitors.filter isSelected).map (fun c => c.id)) oracle now).2 := rfl
  refine ⟨rfl, ?_, ?_⟩
  · rw [h1, hg]
    refine List.map_congr_left (fun x hx => ?_)
    have hc : (((a.competitors.filter isSelected).map (fun c => c.id)).contains x.id) =
        isSelected x := by
      by_cases hS : isSelected x = true
      · rw [hS]
        have hmemf : x ∈ a.competitors.filter isSelected :=
          List.mem_filter.mpr ⟨hx, hS⟩
        have hmemid : x.id ∈ (a.competitors.filter isSelected).map (fun c => c.id) :=
          List.mem_map_of_mem _ hmemf
        exact List.elem_iff.mpr hmemid
      · have hS' : isSelected x = false := Bool.eq_false_iff.mpr hS
        rw [hS']
        apply Bool.eq_false_iff.mpr
        intro hcon
        have hmemid : x.id ∈ (a.competitors.filter isSelected).map (fun c => c.id) :=
          List.elem_iff.mp hcon
        obtain ⟨t, htf, htid⟩ := List.mem_map.mp hmemid
        have htA : t ∈ a.competitors := List.mem_of_mem_filter htf
        have hfx : a.competitors.find? (fun y => y.id == x.id) = some x :=
          find?_id_self a.competitors hnd x hx
        have hte : t = x :=
          find?_id_unique a.competitors x.id hnd x hfx t htA (by simpa using htid)
        rw [hte] at htf
        have hsx : isSelected x = true := (List.mem_filter.mp htf).2
        rw [hS'] at hsx
        cases hsx
    rw [hc]
  · rw [h2, hg]

/-- C4 witness: with one failing and one succeeding competitor, both are
attempted, the failure of the first does not disturb the second, and
exactly one success is counted. -/
theorem scrapeAllPending_spec_witness :
    (scrapeAllPendingModel batchAnalysis batchOracle "t1").1.status = .SCRAPING ∧
    (scrapeAllPendingModel batchAnalysis batchOracle "t1").1.competitors =
      batchAnalysis.competitors.map (fun c =>
        if isSelected c then scrapeResult c (batchOracle c.id) "t1" else c) ∧
    (scrapeAllPendingModel batchAnalysis batchOracle "t1").2 =
      (batchAnalysis.competitors.filter isSelected).countP
        (fun c => urlTruthy c.url && exceptOk (batchOracle c.id)) :=
  scrapeAllPending_spec batchAnalysis batchOracle "t1" (by decide)

/-- C3 (amended): the prompt's per-competitor block shows, for
description and tagline, the stored field first (the manually entered
value wins over the raw scraped blob), then the scraped value, then
`N/A`; features use the manual list when non-empty, else the scraped
list; pricing uses the stored value first; and the page-content excerpt
is a prefix of the scraped body text of length at most 1500. -/
theorem competitorDetail_amended (c : Competitor) :
    competitorDetail c = amendedCompetitorDetail c ∧
    (amendedPageContent c).length ≤ 1500 ∧
    (∃ rest, (match c.rawScrapedData with
      | some d => d.bodyText
      | none => "").data = (amendedPageContent c).data ++ rest) := by
  refine ⟨?_, ?_, ?_⟩
  · have hdesc : strOr c.description
        (strOr (c.rawScrapedData.map (fun d => d.description)) "N/A") =
        amendedDescription c := by
      cases hd : c.description <;> cases hr : c.rawScrapedData <;>
        simp [strOr, amendedDescription, hd, hr]
    have htag : strOr c.tagline
        (strOr (c.rawScrapedData.map (fun d => d.tagline)) "N/A") =
        amendedTagline c := by
      cases hd : c.tagline <;> cases hr : c.rawScrapedData <;>
        simp [strOr, amendedTagline, hd, hr]
    have hpr : strOr c.pricing
        (strOr (c.rawScrapedData.map (fun d => d.pricing)) "N/A") =
        amendedPricing c := by
      cases hd : c.pricing <;> cases hr : c.rawScrapedData <;>
        simp [strOr, amendedPricing, hd, hr]
    have hfeat : strNonEmptyOr
        (String.intercalate ", "
          (if c.features.length != 0 then c.features
           else match c.rawScrapedData with
                | some d => d.features
                | none => [])) "N/A" = amendedFeatures c := by
      cases hf : c.features with
      | nil => simp [strNonEmptyOr, amendedFeatures, hf]
      | cons x t => simp [strNonEmptyOr, amendedFeatures, hf]
    have hpc : jsSlice (match c.rawScrapedData with
        | some d => d.bodyText
        | none => "") 1500 = amendedPageContent c := by
      cases hr : c.rawScrapedData with
      | none =>
        simp [jsSlice, amendedPageContent, hr]
        rfl
      | some d => simp [jsSlice, amendedPageContent, hr]
    unfold competitorDetail amendedCompetitorDetail
    rw [hdesc, htag, hfeat, hpr, hpc]
  · cases hr : c.rawScrapedData with
    | none => simp [amendedPageContent, hr]
    | some d =>
      have h1 : (amendedPageContent c).length = (d.bodyText.data.take 1500).length := by
        rw [amendedPageContent, hr]
        rfl
      rw [h1, List.length_take]
      exact Nat.min_le_left _ _
  · cases hr : c.rawScrapedData with
    | none =>
      refine ⟨[], ?_⟩
      simp [amendedPageContent, hr]
    | some d =>
      refine ⟨d.bodyText.data.drop 1500, ?_⟩
      rw [amendedPageContent, hr]
      exact (List.take_append_drop 1500 d.bodyText.data).symm

/-- C3 counterexample: the claimed scraped-wins precedence for description
and tagline is false — on a competitor carrying both values the prompt
shows the stored (manual) description and tagline, not the scraped ones,
so the block differs from the claim's version. -/
theorem competitorDetail_scraped_precedence_false :
    competitorDetail manualVsScrapedCompetitor ≠
      specScrapedWinsDetail manualVsScrapedCompetitor ∧
    strOr manualVsScrapedCompetitor.description
      (strOr (manualVsScrapedCompetitor.rawScrapedData.map (fun d => d.description)) "N/A") =
      "Manual description" ∧
    strOr (manualVsScrapedCompetitor.rawScrapedData.map (fun d => d.description))
      (strOr manualVsScrapedCompetitor.description "N/A") =
      "Scraped description" := by
  refine ⟨?_, by decide, by decide⟩
  decide

/-! ## C7 — shape invariants of the extracted record -/

theorem noWsRun_tail (a : Char) (t : List Char) (h : noWsRun (a :: t) = true) :
    noWsRun t = true := by
  cases t with
  | nil => rfl
  | cons b r =>
    simp only [noWsRun, Bool.and_eq_true] at h
    exact h.2

theorem noWsRun_append_left :
    ∀ (xs ys : List Char), noWsRun (xs ++ ys) = true → noWsRun xs = true := by
  intro xs
  induction xs with
  | nil => intro ys _; rfl
  | cons a t ih =>
    intro ys h
    cases t with
    | nil => rfl
    | cons b r =>
      simp only [List.cons_append, noWsRun, Bool.and_eq_true] at h
      have h2 : noWsRun (b :: r) = true := ih ys (by simpa using h.2)
      simp only [noWsRun, Bool.and_eq_true]
      exact ⟨h.1, h2⟩

theorem noWsRun_append_right :
    ∀ (xs ys : List Char), noWsRun (xs ++ ys) = true → noWsRun ys = true := by
  intro xs
  induction xs with
  | nil => intro ys h; simpa using h
  | cons a t ih =>
    intro ys h
    exact ih ys (noWsRun_tail a (t ++ ys) (by simpa using h))

theorem noWsRun_collapse (l : List Char) : noWsRun (collapseWs l) = true := by
  induction l with
  | nil => rfl
  | cons c t ih =>
    have hstep : collapseWs (c :: t) = wsStep c (collapseWs t) := rfl
    rw [hstep]
    by_cases hc : isWs c = true
    · cases hacc : collapseWs t with
      | nil =>
        simp [wsStep, hc, noWsRun]
      | cons a r =>
        rw [hacc] at ih
        by_cases ha : isWs a = true
        · have hw : wsStep c (a :: r) = a :: r := by simp [wsStep, hc, ha]
          rw [hw]
          exact ih
        · have ha' : isWs a = false := Bool.eq_false_iff.mpr ha
          have hw : wsStep c (a :: r) = ' ' :: a :: r := by simp [wsStep, hc, ha']
          rw [hw]
          simp only [noWsRun, Bool.and_eq_true]
          exact ⟨by simp [ha'], ih⟩
    · have hc' : isWs c = false := Bool.eq_false_iff.mpr hc
      have hw : wsStep c (collapseWs t) = c :: collapseWs t := by simp [wsStep, hc']
      rw [hw]
      cases hacc : collapseWs t with
      | nil => rfl
      | cons a r =>
        rw [hacc] at ih
        simp only [noWsRun, Bool.and_eq_true]
        exact ⟨by simp [hc'], ih⟩

theorem head?_dropWhileWs :
    ∀ (l : List Char) (c : Char), (l.dropWhile isWs).head? = some c → isWs c = false := by
  intro l
  induction l with
  | nil => intro c h; simp [List.dropWhile] at h
  | cons a t ih =>
    intro c h
    by_cases ha : isWs a = true
    · rw [List.dropWhile_cons_of_pos (by simpa using ha)] at h
      exact ih c h
    · have ha' : isWs a = false := Bool.eq_false_iff.mpr ha
      rw [List.dropWhile_cons_of_neg (by simp [ha'])] at h
      have : a = c := by simpa using h
      rw [← this]
      exact ha'

theorem dropWhileWs_eq_self (l : List Char)
    (h : ∀ c, l.head? = some c → isWs c = false) : l.dropWhile isWs = l := by
  cases l with
  | nil => rfl
  | cons a t =>
    have ha : isWs a = false := h a rfl
    rw [List.dropWhile_cons_of_neg (by simp [ha])]

/-- Trailing-whitespace removal splits a list into the kept part and the
dropped whitespace suffix. -/
theorem rdropWs_append (m : List Char) :
    m = rdropWs m ++ (m.reverse.takeWhile isWs).reverse := by
  calc m = m.reverse.reverse := (List.reverse_reverse m).symm
    _ = (m.reverse.takeWhile isWs ++ m.reverse.dropWhile isWs).reverse := by
        rw [List.takeWhile_append_dropWhile]
    _ = (m.reverse.dropWhile isWs).reverse ++ (m.reverse.takeWhile isWs).reverse := by
        rw [List.reverse_append]
    _ = rdropWs m ++ (m.reverse.takeWhile isWs).reverse := rfl

/-- Trimming splits a list as leading whitespace, the trimmed core, and
trailing whitespace. -/
theorem trimChars_decomp (l : List Char) :
    ∃ p q, l = p ++ (trimChars l ++ q) := by
  refine ⟨l.takeWhile isWs, ((l.dropWhile isWs).reverse.takeWhile isWs).reverse, ?_⟩
  have h2 : List.dropWhile isWs l =
      trimChars l ++ ((l.dropWhile isWs).reverse.takeWhile isWs).reverse := by
    unfold trimChars
    exact rdropWs_append (l.dropWhile isWs)
  conv_lhs => rw [← List.takeWhile_append_dropWhile (p := isWs) (l := l), h2]

theorem head?_trimChars (l : List Char) (c : Char)
    (h : (trimChars l).head? = some c) : isWs c = false := by
  cases hr : trimChars l with
  | nil => rw [hr] at h; simp at h
  | cons x xs =>
    rw [hr] at h
    have hcx : x = c := by simpa using h
    have hm := rdropWs_append (l.dropWhile isWs)
    have hhead : (l.dropWhile isWs).head? = some x := by
      rw [hm]
      have : rdropWs (l.dropWhile isWs) = x :: xs := hr
      rw [this]
      rfl
    rw [← hcx]
    exact head?_dropWhileWs l x hhead

theorem trimChars_idem (l : List Char) :
    trimChars (trimChars l) = trimChars l := by
  have hid : ∀ X : List Char, (X.dropWhile isWs).dropWhile isWs = X.dropWhile isWs :=
    fun X => dropWhileWs_eq_self _ (fun c hc => head?_dropWhileWs X c hc)
  have hrev : (trimChars l).reverse = (l.dropWhile isWs).reverse.dropWhile isWs := by
    unfold trimChars rdropWs
    rw [List.reverse_reverse]
  have hself : (trimChars l).dropWhile isWs = trimChars l :=
    dropWhileWs_eq_self _ (fun c hc => head?_trimChars l c hc)
  calc trimChars (trimChars l)
      = rdropWs ((trimChars l).dropWhile isWs) := rfl
    _ = rdropWs (trimChars l) := by rw [hself]
    _ = ((trimChars l).reverse.dropWhile isWs).reverse := rfl
    _ = (((l.dropWhile isWs).reverse.dropWhile isWs).dropWhile isWs).reverse := by rw [hrev]
    _ = ((l.dropWhile isWs).reverse.dropWhile isWs).reverse := by rw [hid]
    _ = ((trimChars l).reverse).reverse := by rw [hrev]
    _ = trimChars l := List.reverse_reverse _

theorem take_append_own : ∀ (xs ys : List Char), (xs ++ ys).take xs.length = xs := by
  intro xs
  induction xs with
  | nil => intro ys; rfl
  | cons a t ih =>
    intro ys
    simp only [List.cons_append, List.length_cons, List.take_succ_cons]
    rw [ih]

theorem take_of_le_length : ∀ (n : Nat) (l : List Char), l.length ≤ n → l.take n = l := by
  intro n
  induction n with
  | zero =>
    intro l h
    cases l with
    | nil => rfl
    | cons a t => simp at h
  | succ m ih =>
    intro l h
    cases l with
    | nil => rfl
    | cons a t =>
      simp only [List.take]
      rw [ih t (by simpa using h)]

theorem head?_take5000 (l : List Char) : (l.take 5000).head? = l.head? := by
  cases l with
  | nil => rfl
  | cons a t => rfl

/-- Invariant of the feature-collection fold: starting from a valid
accumulator, the result stays within the cap and the length bounds. -/
theorem collectFeatures_fold (ls : List String) :
    ∀ (acc : List String), acc.length ≤ 20 →
    (∀ f ∈ acc, 5 < f.length ∧ f.length < 200) →
    (ls.foldl featStep acc).length ≤ 20 ∧
    ∀ f ∈ ls.foldl featStep acc, 5 < f.length ∧ f.length < 200 := by
  induction ls with
  | nil =>
    intro acc hlen hb
    exact ⟨hlen, hb⟩
  | cons x t ih =>
    intro acc hlen hb
    rw [List.foldl_cons]
    by_cases hcond : ((trimStr x).length > 5 && (trimStr x).length < 200 &&
        acc.length < 20) = true
    · have hstep : featStep acc x = acc ++ [trimStr x] := by
        unfold featStep
        exact if_pos hcond
      rw [hstep]
      have hparts : 5 < (trimStr x).length ∧ (trimStr x).length < 200 ∧ acc.length < 20 := by
        simp only [Bool.and_eq_true, decide_eq_true_eq] at hcond
        exact ⟨hcond.1.1, hcond.1.2, hcond.2⟩
      refine ih (acc ++ [trimStr x]) ?_ ?_
      · rw [List.length_append]
        have h20 : acc.length < 20 := hparts.2.2
        have h1 : [trimStr x].length = 1 := rfl
        omega
      · intro f hf
        rcases List.mem_append.mp hf with hfa | hfx
        · exact hb f hfa
        · have hfe : f = trimStr x := by simpa using hfx
          rw [hfe]
          exact ⟨hparts.1, hparts.2.1⟩
    · have hstep : featStep acc x = acc := by
        unfold featStep
        exact if_neg hcond
      rw [hstep]
      exact ih acc hlen hb

/-- C7 (amended): every extracted record keeps all fields present with
empty defaults, the feature list holds at most 20 entries of length
strictly between 5 and 200, the pricing snippet has at most 1000
characters, and the condensed body text has at most 5000 characters, no
whitespace run longer than one character and no leading whitespace; it
equals its own trim whenever it was not cut at the 5000-character cap
(truncation may leave one trailing space — trimming happens before the
cut). -/
theorem extractDoc_bounds (d : Doc) (url now : String) :
    (extractDoc d url now).features.length ≤ 20 ∧
    (∀ f ∈ (extractDoc d url now).features, 5 < f.length ∧ f.length < 200) ∧
    (extractDoc d url now).pricing.length ≤ 1000 ∧
    (extractDoc d url now).bodyText.length ≤ 5000 ∧
    noWsRun (extractDoc d url now).bodyText.data = true ∧
    (∀ ch, (extractDoc d url now).bodyText.data.head? = some ch → isWs ch = false) ∧
    ((extractDoc d url now).bodyText.length < 5000 →
      trimChars (extractDoc d url now).bodyText.data =
        (extractDoc d url now).bodyText.data) ∧
    (d.title = none → (extractDoc d url now).title = "") ∧
    (d.metaDescription = none → d.ogDescription = none →
      (extractDoc d url now).description = "") ∧
    (d.pricingText = none → (extractDoc d url now).pricing = "") ∧
    (extractDoc d url now).url = url ∧
    (extractDoc d url now).scrapedAt = now := by
  have hfeat : (extractDoc d url now).features = collectFeatures d.liTexts := rfl
  have hbody : (extractDoc d url now).bodyText =
      ((trimChars (collapseWs d.bodyText.data)).take 5000).asString := rfl
  have hbodyd : (extractDoc d url now).bodyText.data =
      (trimChars (collapseWs d.bodyText.data)).take 5000 := rfl
  have hbodylen : (extractDoc d url now).bodyText.length =
      ((trimChars (collapseWs d.bodyText.data)).take 5000).length := rfl
  have hcf := collectFeatures_fold d.liTexts [] (by simp) (by simp)
  have htrim : noWsRun (trimChars (collapseWs d.bodyText.data)) = true := by
    obtain ⟨p, q, hpq⟩ := trimChars_decomp (collapseWs d.bodyText.data)
    have h0 := noWsRun_collapse d.bodyText.data
    rw [hpq] at h0
    exact noWsRun_append_left _ _ (noWsRun_append_right _ _ h0)
  refine ⟨?_, ?_, ?_, ?_, ?_, ?_, ?_, ?_, ?_, ?_, rfl, rfl⟩
  · rw [hfeat]
    exact hcf.1
  · rw [hfeat]
    exact hcf.2
  · cases hp : d.pricingText with
    | none =>
      have : (extractDoc d url now).pricing = "" := by
        show (match d.pricingText with
          | some p => jsSlice (trimStr p) 1000
          | none => "") = ""
        rw [hp]
      rw [this]
      simp
    | some p =>
      have : (extractDoc d url now).pricing = jsSlice (trimStr p) 1000 := by
        show (match d.pricingText with
          | some p => jsSlice (trimStr p) 1000
          | none => "") = _
        rw [hp]
      rw [this]
      have h1 : (jsSlice (trimStr p) 1000).length = ((trimStr p).data.take 1000).length := rfl
      rw [h1, List.length_take]
      exact Nat.min_le_left _ _
  · rw [hbodylen, List.length_take]
    exact Nat.min_le_left _ _
  · rw [hbodyd]
    have := htrim
    obtain hdecomp := List.take_append_drop 5000 (trimChars (collapseWs d.bodyText.data))
    rw [← hdecomp] at this
    exact noWsRun_append_left _ _ this
  · intro ch hch
    rw [hbodyd, head?_take5000] at hch
    exact head?_trimChars _ ch hch
  · intro hlt
    rw [hbodylen, List.length_take] at hlt
    have hlen : (trimChars (collapseWs d.bodyText.data)).length < 5000 := by
      rcases Nat.lt_or_ge (trimChars (collapseWs d.bodyText.data)).length 5000 with h | h
      · exact h
      · exfalso
        rw [Nat.min_eq_left h] at hlt
        exact Nat.lt_irrefl _ hlt
    rw [hbodyd, take_of_le_length 5000 _ (Nat.le_of_lt hlen)]
    exact trimChars_idem _
  · intro ht
    show strNonEmptyOr (trimStr (strOr d.title "")) "" = ""
    rw [ht]
    rfl
  · intro h1 h2
    show strOr (d.metaDescription.map trimStr) (strOr (d.ogDescription.map trimStr) "") = ""
    rw [h1, h2]
    rfl
  · intro hp
    show (match d.pricingText with
      | some p => jsSlice (trimStr p) 1000
      | none => "") = ""
    rw [hp]

/-- C7 witness: the bounds hold of a concrete extraction, the defaults
fire for the absent title, and the short body text is exactly its own
trim. -/
theorem extractDoc_bounds_witness :
    (extractDoc witnessDoc "u" "t").features.length ≤ 20 ∧
    (extractDoc witnessDoc "u" "t").pricing.length ≤ 1000 ∧
    (extractDoc witnessDoc "u" "t").bodyText.length ≤ 5000 ∧
    trimChars (extractDoc witnessDoc "u" "t").bodyText.data =
      (extractDoc witnessDoc "u" "t").bodyText.data ∧
    (extractDoc witnessDoc "u" "t").title = "" := by
  have h := extractDoc_bounds witnessDoc "u" "t"
  exact ⟨h.1, h.2.2.1, h.2.2.2.1, h.2.2.2.2.2.2.1 (by decide), h.2.2.2.2.2.2.2.1 rfl⟩

theorem altAB_length : ∀ n, (altAB n).length = 2 * n := by
  intro n
  induction n with
  | zero => rfl
  | succ m ih =>
    show ('a' :: ' ' :: altAB m).length = 2 * (m + 1)
    simp [ih]
    omega

theorem altAB_snoc : ∀ n, altAB (n + 1) = altAB n ++ ['a', ' '] := by
  intro n
  induction n with
  | zero => rfl
  | succ m ih =>
    show 'a' :: ' ' :: altAB (m + 1) = ('a' :: ' ' :: altAB m) ++ ['a', ' ']
    rw [ih]
    simp [List.cons_append]

theorem head_altAB_tail : ∀ n, ∃ h t, altAB n ++ ['b', 'c'] = h :: t ∧ isWs h = false := by
  intro n
  cases n with
  | zero => exact ⟨'b', ['c'], rfl, by decide⟩
  | succ m => exact ⟨'a', ' ' :: (altAB m ++ ['b', 'c']), rfl, by decide⟩

theorem collapse_altAB : ∀ n, collapseWs (altAB n ++ ['b', 'c']) = altAB n ++ ['b', 'c'] := by
  intro n
  induction n with
  | zero => decide
  | succ m ih =>
    have hcons : collapseWs (altAB (m + 1) ++ ['b', 'c']) =
        wsStep 'a' (wsStep ' ' (collapseWs (altAB m ++ ['b', 'c']))) := rfl
    rw [hcons, ih]
    obtain ⟨h, t, hht, hws⟩ := head_altAB_tail m
    rw [hht]
    have hsp : isWs ' ' = true := by decide
    have ha : isWs 'a' = false := by decide
    have h1 : wsStep ' ' (h :: t) = ' ' :: h :: t := by simp [wsStep, hsp, hws]
    have h2 : wsStep 'a' (' ' :: h :: t) = 'a' :: ' ' :: h :: t := by simp [wsStep, ha]
    rw [h1, h2, ← hht]
    rfl

theorem dropWhile_altAB (n : Nat) :
    (altAB n ++ ['b', 'c']).dropWhile isWs = altAB n ++ ['b', 'c'] := by
  obtain ⟨h, t, hht, hws⟩ := head_altAB_tail n
  rw [hht]
  refine dropWhileWs_eq_self _ (fun c hc => ?_)
  have hhc : h = c := by simpa using hc
  rw [← hhc]
  exact hws

theorem rdrop_altAB (n : Nat) :
    rdropWs (altAB n ++ ['b', 'c']) = altAB n ++ ['b', 'c'] := by
  unfold rdropWs
  have hrev : (altAB n ++ ['b', 'c']).reverse = 'c' :: 'b' :: (altAB n).reverse := by
    rw [List.reverse_append]
    rfl
  rw [hrev]
  have hc : isWs 'c' = false := by decide
  rw [List.dropWhile_cons_of_neg (by simp [hc])]
  rw [← hrev, List.reverse_reverse]

theorem trim_altAB (n : Nat) :
    trimChars (altAB n ++ ['b', 'c']) = altAB n ++ ['b', 'c'] := by
  unfold trimChars
  rw [dropWhile_altAB, rdrop_altAB]

theorem trim_altAB_drop (n : Nat) :
    trimChars (altAB (n + 1)) = altAB n ++ ['a'] := by
  have ha : isWs 'a' = false := by decide
  have hsp : isWs ' ' = true := by decide
  unfold trimChars
  have hd : (altAB (n + 1)).dropWhile isWs = altAB (n + 1) := by
    show (('a' :: ' ' :: altAB n).dropWhile isWs) = _
    rw [List.dropWhile_cons_of_neg (by simp [ha])]
    rfl
  rw [hd]
  unfold rdropWs
  have hrev : (altAB (n + 1)).reverse = ' ' :: 'a' :: (altAB n).reverse := by
    rw [altAB_snoc, List.reverse_append]
    rfl
  rw [hrev]
  rw [List.dropWhile_cons_of_pos (by simp [hsp])]
  rw [List.dropWhile_cons_of_neg (by simp [ha])]
  rw [List.reverse_cons, List.reverse_reverse]

theorem trim_altAB_ne (n : Nat) : trimChars (altAB (n + 1)) ≠ altAB (n + 1) := by
  intro h
  have h1 : (trimChars (altAB (n + 1))).length = (altAB (n + 1)).length := by rw [h]
  rw [trim_altAB_drop, List.length_append, altAB_length, altAB_length] at h1
  simp at h1
  omega

theorem take_altAB : (altAB 2500 ++ ['b', 'c']).take 5000 = altAB 2500 := by
  have hl : (altAB 2500).length = 5000 := by
    rw [altAB_length]
  rw [← hl]
  exact take_append_own _ _

theorem extractDoc_bodyText_data (d : Doc) (url now : String) :
    (extractDoc d url now).bodyText.data =
      (trimChars (collapseWs d.bodyText.data)).take 5000 := rfl

theorem extractDoc_bodyText_len (d : Doc) (url now : String) :
    (extractDoc d url now).bodyText.length =
      ((trimChars (collapseWs d.bodyText.data)).take 5000).length := rfl

/-- C7 counterexample: the claim that the extracted body text "is
trimmed" is false.  On `longBodyDoc` the 5000-character cap cuts the
(already trimmed) text right after a space, so the persisted body text
ends in whitespace and differs from its own trim. -/
theorem extract_bodyText_not_trimmed :
    trimChars (extractDoc longBodyDoc "u" "t").bodyText.data ≠
      (extractDoc longBodyDoc "u" "t").bodyText.data ∧
    (extractDoc longBodyDoc "u" "t").bodyText.length = 5000 := by
  have hdata := extractDoc_bodyText_data longBodyDoc "u" "t"
  have hbd : longBodyDoc.bodyText.data = altAB 2500 ++ ['b', 'c'] := rfl
  rw [hbd] at hdata
  have hstep : (trimChars (collapseWs (altAB 2500 ++ ['b', 'c']))).take 5000 =
      altAB 2500 := by
    rw [collapse_altAB, trim_altAB, take_altAB]
  constructor
  · rw [hdata, hstep]
    exact trim_altAB_ne 2499
  · have hlen := extractDoc_bodyText_len longBodyDoc "u" "t"
    rw [hbd] at hlen
    rw [hlen, hstep, altAB_length]

/-- Characterization of one `runAnalysis` call whose engine answer
resolves to a score array. -/
theorem runAnalysis_arr_eq (a : AnalysisState) (r : EngineResult)
    (entries : List ScoreEntryJ)
    (hr : jvalOr r.competitor_scores (jvalOr r.patterns (.jarr [])) = .jarr entries) :
    runAnalysisModel (some a) (fun _ => .ok r) =
      ⟨some { a with
          status := .COMPLETED
          competitors := entries.foldl (applyEntry a.competitors) a.competitors
          summary := some r
          overallScore :=
            (if (entries.filterMap (fun s => numOf (coal s.overallScore s.overall))).length > 0 then
              some ((entries.filterMap (fun s => numOf (coal s.overallScore s.overall))).foldl
                  (fun x y => x + y) 0 /
                (((entries.filterMap (fun s => numOf (coal s.overallScore s.overall))).length : Nat) : Rat))
            else none) },
        .ok r, [.ANALYZING, .COMPLETED]⟩ := by
  unfold runAnalysisModel
  simp only []
  rw [hr]

/-- C1 (amended): when the analysis exists, the engine responds, and the
resolved score value is an array, `runAnalysis` completes the analysis
with aggregate score equal to the arithmetic mean of the numeric
`overallScore`/`overall` values over ALL entries of that array — matched
to a competitor or not — and the aggregate is null (not zero and not a
division of an empty sum) when no entry is numeric. -/
theorem runAnalysis_aggregate (a : AnalysisState) (r : EngineResult)
    (entries : List ScoreEntryJ)
    (hr : jvalOr r.competitor_scores (jvalOr r.patterns (.jarr [])) = .jarr entries) :
    ∃ a', (runAnalysisModel (some a) (fun _ => .ok r)).state = some a' ∧
      a'.status = .COMPLETED ∧
      a'.overallScore = meanNumericOverall entries := by
  have hrun := runAnalysis_arr_eq a r entries hr
  refine ⟨_, by rw [hrun], rfl, ?_⟩
  show (if (entries.filterMap (fun s => numOf (coal s.overallScore s.overall))).length > 0 then
      some ((entries.filterMap (fun s => numOf (coal s.overallScore s.overall))).foldl
          (fun x y => x + y) 0 /
        (((entries.filterMap (fun s => numOf (coal s.overallScore s.overall))).length : Nat) : Rat))
    else none) = meanNumericOverall entries
  unfold meanNumericOverall
  cases hv : entries.filterMap (fun s => numOf (coal s.overallScore s.overall)) with
  | nil => simp
  | cons v vs =>
    have hpos : ((v :: vs).length > 0) = True := by simp
    rw [if_pos (by simp)]
    have hsum : (v :: vs).foldl (fun x y => x + y) 0 = (v :: vs).sum := by
      rw [List.sum_eq_foldl]
    rw [hsum]

/-- C1 counterexample: the claim that the aggregate averages only the
entries that matched a competitor is false.  With one competitor `X` and
entries scoring 10 (matched) and 30 (unmatched), the code's aggregate is
20 — the mean over both entries — while the claimed matched-only mean
is 10. -/
theorem runAnalysis_aggregate_claim_false :
    Option.map (fun s => s.overallScore)
      (runAnalysisModel (some aggAnalysis) (fun _ => .ok rTwoEntries)).state =
      some (some 20) ∧
    meanMatchedOverall aggAnalysis.competitors [eX, eY] = some 10 ∧
    (some (20 : Rat) : Option Rat) ≠ some (10 : Rat) := by
  have h1 : jvalOr rTwoEntries.competitor_scores
      (jvalOr rTwoEntries.patterns (.jarr [])) = .jarr [eX, eY] := by decide
  have hfm2 : [eX, eY].filterMap (fun s => numOf (coal s.overallScore s.overall)) =
      [10, 30] := by decide
  refine ⟨?_, ?_, ?_⟩
  · rw [runAnalysis_arr_eq aggAnalysis rTwoEntries [eX, eY] h1]
    simp only [Option.map, hfm2]
    norm_num
  · have hmatch : [eX, eY].filter (fun e =>
        (aggAnalysis.competitors.find? (fun c =>
          some c.id == e.competitorId || some c.name == e.name)).isSome) = [eX] := by
      decide
    unfold meanMatchedOverall
    rw [hmatch]
    have hfm1 : [eX].filterMap (fun e => numOf (coal e.overallScore e.overall)) =
        [(10 : Rat)] := by decide
    unfold meanNumericOverall
    rw [hfm1]
    norm_num
  · intro h
    have h10 : (20 : Rat) = 10 := Option.some.inj h
    norm_num at h10

/-- C1 witness: the amended aggregate rule applied to the concrete
two-entry response above. -/
theorem runAnalysis_aggregate_witness :
    ∃ a', (runAnalysisModel (some aggAnalysis) (fun _ => .ok rTwoEntries)).state = some a' ∧
      a'.status = .COMPLETED ∧
      a'.overallScore = meanNumericOverall [eX, eY] :=
  runAnalysis_aggregate aggAnalysis rTwoEntries [eX, eY] (by decide)

/-- C2 evaluation at the failing input: with `competitor_scores: 5` the
run does NOT complete with an empty result set — the `.map` call on the
non-array value throws, the analysis is marked `FAILED` and the error
propagates; the competitor rows are left unchanged.  (With both keys
absent the run does complete, so the claim holds only on that
subfamily.) -/
theorem runAnalysis_nonarray_crashes :
    Option.map (fun s => s.status)
      (runAnalysisModel (some aggAnalysis) (fun _ => .ok rNonArray)).state =
      some .FAILED ∧
    (runAnalysisModel (some aggAnalysis) (fun _ => .ok rNonArray)).result =
      .error "competitorScores.map is not a function" ∧
    Option.map (fun s => s.competitors)
      (runAnalysisModel (some aggAnalysis) (fun _ => .ok rNonArray)).state =
      some aggAnalysis.competitors ∧
    Option.map (fun s => s.status)
      (runAnalysisModel (some aggAnalysis)
        (fun _ => .ok { competitor_scores := none, patterns := none })).state =
      some .COMPLETED := by
  refine ⟨by decide, by decide, by decide, by decide⟩

/-- C8 (amended): the coordinators write statuses unconditionally —
`runAnalysis` always writes `ANALYZING` then `COMPLETED` or `FAILED`,
`scrapeAllPending` always writes `SCRAPING`, in both cases without
inspecting the current status (the whole outcome is invariant under
changing it), and neither ever writes `DRAFT` (or `SCRAPING`, for
`runAnalysis`); hence phase-skipping transitions such as
`DRAFT → ANALYZING` occur whenever a caller invokes `runAnalysis` on an
unscraped analysis. -/
theorem coordinator_status_unguarded (a : AnalysisState) (s : AnalysisStatus)
    (engine : String → Except String EngineResult)
    (oracle : String → Except String ScrapedData) (now : String) :
    ((runAnalysisModel (some a) engine).statusWrites = [.ANALYZING, .COMPLETED] ∨
     (runAnalysisModel (some a) engine).statusWrites = [.ANALYZING, .FAILED]) ∧
    runAnalysisModel (some { a with status := s }) engine =
      runAnalysisModel (some a) engine ∧
    AnalysisStatus.DRAFT ∉ (runAnalysisModel (some a) engine).statusWrites ∧
    AnalysisStatus.SCRAPING ∉ (runAnalysisModel (some a) engine).statusWrites ∧
    (scrapeAllPendingModel a oracle now).1.status = .SCRAPING ∧
    scrapeAllPendingModel { a with status := s } oracle now =
      scrapeAllPendingModel a oracle now := by
  have hcases : (runAnalysisModel (some a) engine).statusWrites = [.ANALYZING, .COMPLETED] ∨
      (runAnalysisModel (some a) engine).statusWrites = [.ANALYZING, .FAILED] := by
    unfold runAnalysisModel
    simp only []
    split
    · right; rfl
    · split
      · left; rfl
      · right; rfl
  refine ⟨hcases, rfl, ?_, ?_, rfl, rfl⟩
  · rcases hcases with h | h <;> rw [h] <;> decide
  · rcases hcases with h | h <;> rw [h] <;> decide

/-- C8 witness: the write characterization at a concrete analysis,
status, engine and oracle. -/
theorem coordinator_status_unguarded_witness :
    ((runAnalysisModel (some baseAnalysis) (fun _ => .error "boom")).statusWrites =
        [.ANALYZING, .COMPLETED] ∨
     (runAnalysisModel (some baseAnalysis) (fun _ => .error "boom")).statusWrites =
        [.ANALYZING, .FAILED]) ∧
    runAnalysisModel (some { baseAnalysis with status := AnalysisStatus.COMPLETED })
        (fun _ => .error "boom") =
      runAnalysisModel (some baseAnalysis) (fun _ => .error "boom") ∧
    AnalysisStatus.DRAFT ∉
      (runAnalysisModel (some baseAnalysis) (fun _ => .error "boom")).statusWrites ∧
    AnalysisStatus.SCRAPING ∉
      (runAnalysisModel (some baseAnalysis) (fun _ => .error "boom")).statusWrites ∧
    (scrapeAllPendingModel baseAnalysis (fun _ => .error "x") "t1").1.status = .SCRAPING ∧
    scrapeAllPendingModel { baseAnalysis with status := AnalysisStatus.COMPLETED }
        (fun _ => .error "x") "t1" =
      scrapeAllPendingModel baseAnalysis (fun _ => .error "x") "t1" :=
  coordinator_status_unguarded baseAnalysis AnalysisStatus.COMPLETED
    (fun _ => .error "boom") (fun _ => .error "x") "t1"

/-- C8 counterexample: `runAnalysis` called on an analysis still in
`DRAFT` performs the transition `DRAFT → ANALYZING`, which the claimed
state machine does not allow (it skips the `SCRAPING` phase). -/
theorem runAnalysis_skips_phase :
    baseAnalysis.status = .DRAFT ∧
    (runAnalysisModel (some baseAnalysis)
        (fun _ => .ok { competitor_scores := none, patterns := none })).statusWrites.head? =
      some .ANALYZING ∧
    allowedTransition .DRAFT .ANALYZING = false := by
  refine ⟨rfl, by decide, by decide⟩

end CompetitorAnalysis

